import Mathlib

/-
Verification of the Nexus MCP gateway (avi3tal/nexus-mcp).

Shallow embedding of the transport layer (SSETransport), the capability
aggregation engine of a virtual server instance (VMCPInstance), the
capability catalog and discoverer (CapabilityRegistry, CapabilityDiscoverer)
and the virtual-server manager (VMCPManager).  JavaScript `Map` objects are
embedded as association lists with `Map.set` / `Map.get` / `Map.has` /
`Map.delete` semantics (insertion order preserved, replace-in-place on set).
-/

namespace Nexus

/- Generic embedding of the JavaScript Map object used throughout the code. -/

def mapHas {α : Type} (m : List (String × α)) (k : String) : Bool :=
  m.any (fun p => p.fst == k)

def mapGet {α : Type} (m : List (String × α)) (k : String) : Option α :=
  (m.find? (fun p => p.fst == k)).map Prod.snd

def mapSet {α : Type} (m : List (String × α)) (k : String) (v : α) : List (String × α) :=
  if mapHas m k then m.map (fun p => if p.fst == k then (k, v) else p)
  else m ++ [(k, v)]

def mapKeys {α : Type} (m : List (String × α)) : List String :=
  m.map Prod.fst

theorem mapGet_nil {α : Type} (k : String) : mapGet ([] : List (String × α)) k = none := rfl

theorem mapGet_cons {α : Type} (p : String × α) (m : List (String × α)) (k : String) :
    mapGet (p :: m) k = if p.fst == k then some p.snd else mapGet m k := by
  unfold mapGet
  rw [List.find?]
  cases h : (p.fst == k) <;> simp [h]

theorem mapHas_nil {α : Type} (k : String) : mapHas ([] : List (String × α)) k = false := rfl

theorem mapHas_cons {α : Type} (p : String × α) (m : List (String × α)) (k : String) :
    mapHas (p :: m) k = ((p.fst == k) || mapHas m k) := by
  simp [mapHas]

theorem mapGet_append {α : Type} (m₁ m₂ : List (String × α)) (k : String) :
    mapGet (m₁ ++ m₂) k =
      match mapGet m₁ k with
      | some v => some v
      | none => mapGet m₂ k := by
  induction m₁ with
  | nil => simp [mapGet_nil]
  | cons p rest ih =>
    rw [List.cons_append, mapGet_cons, mapGet_cons]
    cases h : (p.fst == k) <;> simp [ih]

theorem mapHas_eq_isSome {α : Type} (m : List (String × α)) (k : String) :
    mapHas m k = (mapGet m k).isSome := by
  induction m with
  | nil => simp [mapHas_nil, mapGet_nil]
  | cons p rest ih =>
    rw [mapHas_cons, mapGet_cons]
    cases h : (p.fst == k) <;> simp [ih]

theorem mapGet_eq_none_of_not_has {α : Type} (m : List (String × α)) (k : String)
    (h : mapHas m k = false) : mapGet m k = none := by
  rw [mapHas_eq_isSome] at h
  cases hm : mapGet m k with
  | none => rfl
  | some w => rw [hm] at h; simp at h

theorem mapGet_replace {α : Type} (m : List (String × α)) (k : String) (v : α) (n : String) :
    mapGet (m.map (fun p => if p.fst == k then (k, v) else p)) n =
      if n == k then (if mapHas m k then some v else none) else mapGet m n := by
  induction m with
  | nil => cases h : (n == k) <;> simp [mapGet_nil, mapHas_nil, h]
  | cons p rest ih =>
    rw [List.map_cons, mapHas_cons]
    cases hp : (p.fst == k) with
    | true =>
      have hpk : p.fst = k := by simpa using hp
      simp only [hp, if_true]
      rw [mapGet_cons, mapGet_cons]
      cases hn : (n == k) with
      | true =>
        have hnk : n = k := by simpa using hn
        simp [hnk]
      | false =>
        have hnk : ¬ (n = k) := by simpa using hn
        have h1 : (k == n) = false := by simp; exact fun h => hnk h.symm
        have h2 : (p.fst == n) = false := by simp [hpk]; exact fun h => hnk h.symm
        simp only [h1, h2, if_false, Bool.false_eq_true]
        rw [ih]
        simp [hn]
    | false =>
      simp only [hp, if_false, Bool.false_eq_true]
      rw [mapGet_cons, mapGet_cons]
      cases hn : (n == k) with
      | true =>
        have hnk : n = k := by simpa using hn
        have h2 : (p.fst == n) = false := by
          subst hnk; exact hp
        simp only [h2, if_false, Bool.false_eq_true]
        rw [ih]
        simp [hn]
      | false =>
        cases hpn : (p.fst == n) with
        | true => simp [hpn]
        | false =>
          simp only [hpn, if_false, Bool.false_eq_true]
          rw [ih]
          simp [hn]

theorem mapGet_set {α : Type} (m : List (String × α)) (k : String) (v : α) (n : String) :
    mapGet (mapSet m k v) n = if n == k then some v else mapGet m n := by
  unfold mapSet
  cases hhas : mapHas m k with
  | true =>
    simp only [hhas, if_true]
    rw [mapGet_replace]
    simp [hhas]
  | false =>
    simp only [hhas, if_false, Bool.false_eq_true]
    rw [mapGet_append]
    have hnone : mapGet m k = none := by
      rw [mapHas_eq_isSome] at hhas
      cases hm : mapGet m k with
      | none => rfl
      | some w => rw [hm] at hhas; simp at hhas
    cases hn : (n == k) with
    | true =>
      have hnk : n = k := by simpa using hn
      subst hnk
      simp [hnone, mapGet_cons]
    | false =>
      have hnk : ¬ (n = k) := by simpa using hn
      have h1 : (k == n) = false := by simp; exact fun h => hnk h.symm
      cases hm : mapGet m n <;> simp [hm, mapGet_cons, mapGet_nil, h1]

theorem mapKeys_set_of_has {α : Type} (m : List (String × α)) (k : String) (v : α)
    (h : mapHas m k = true) : mapKeys (mapSet m k v) = mapKeys m := by
  unfold mapSet
  simp only [h, if_true]
  unfold mapKeys
  rw [List.map_map]
  apply List.map_congr_left
  intro p _
  cases hp : (p.fst == k) with
  | true =>
    have : p.fst = k := by simpa using hp
    simp [Function.comp, hp, this]
  | false => simp [Function.comp, hp]

theorem mapKeys_set_of_not_has {α : Type} (m : List (String × α)) (k : String) (v : α)
    (h : mapHas m k = false) : mapKeys (mapSet m k v) = mapKeys m ++ [k] := by
  unfold mapSet
  simp only [h, if_false, Bool.false_eq_true]
  simp [mapKeys]

theorem mapHas_iff_mem_keys {α : Type} (m : List (String × α)) (k : String) :
    mapHas m k = true ↔ k ∈ mapKeys m := by
  induction m with
  | nil => simp [mapHas_nil, mapKeys]
  | cons p rest ih =>
    rw [mapHas_cons]
    simp [mapKeys] at ih ⊢
    constructor
    · intro h
      rcases h with h | h
      · exact Or.inl h.symm
      · exact Or.inr (ih.mp h)
    · intro h
      rcases h with h | h
      · exact Or.inl h.symm
      · exact Or.inr (ih.mpr h)

theorem mapKeys_nodup_set {α : Type} (m : List (String × α)) (k : String) (v : α)
    (h : (mapKeys m).Nodup) : (mapKeys (mapSet m k v)).Nodup := by
  cases hhas : mapHas m k with
  | true => rw [mapKeys_set_of_has m k v hhas]; exact h
  | false =>
    rw [mapKeys_set_of_not_has m k v hhas]
    rw [List.nodup_append]
    refine ⟨h, List.nodup_singleton k, ?_⟩
    intro a ha hb
    simp at hb
    subst hb
    exact absurd ((mapHas_iff_mem_keys m a).mpr ha) (by simp [hhas])

/-
Transport layer: SSETransport (src/server/transport/SSETransport.ts).

A JSON-RPC id is a number or a string.  A message is modelled by its id (absent
for notifications), whether it carries a truthy `error` member, and an abstract
payload standing for the remaining fields.  The pending-request table
`messageHandlers : Map<number|string, handler>` stores one single-shot handler
per in-flight id; every handler is the one installed by `request()` (clear the
timeout, then reject on `error`, resolve otherwise), so the table is embedded
as the list of its keys, in insertion order.
-/

inductive RpcId
  | num (n : Int)
  | str (s : String)
deriving DecidableEq

structure JSONRPCMessage where
  id : Option RpcId
  hasError : Bool
  payload : String
deriving DecidableEq

/- Observable completion of a pending `request()` promise. -/
inductive CompletionOutcome
  | resolved (msg : JSONRPCMessage)
  | rejected (msg : JSONRPCMessage)
deriving DecidableEq

/- Observable events emitted while processing one inbound SSE message. -/
inductive TransportEvent
  | completed (id : RpcId) (outcome : CompletionOutcome)
  | userHook (msg : JSONRPCMessage)
deriving DecidableEq

structure SSETransportState where
  isConnected : Bool
  messageQueue : List JSONRPCMessage
  pendingIds : List RpcId
  hasUserOnMessage : Bool
  hasReconnectTimeout : Bool
deriving DecidableEq

/- The handler installed by `request()` rejects when the response carries a
truthy `error` member and resolves otherwise (SSETransport.request). -/
def handlerOutcome (msg : JSONRPCMessage) : CompletionOutcome :=
  if msg.hasError then CompletionOutcome.rejected msg else CompletionOutcome.resolved msg

/- `registerPending` is the `this.messageHandlers.set(messageId, handler)`
step of `request()`; a fresh id is appended in insertion order. -/
def registerPending (st : SSETransportState) (i : RpcId) : SSETransportState :=
  if i ∈ st.pendingIds then st else { st with pendingIds := st.pendingIds ++ [i] }

/-
The internal `onmessage` handler (SSETransport.setupInternalEventHandlers):
if the message has a number-or-string id matching a pending handler, invoke
the handler (completing the request) and delete the entry; then, if a user
`onmessage` handler is set, invoke it with the raw message.
-/
def onInboundMessage (st : SSETransportState) (msg : JSONRPCMessage) :
    SSETransportState × List TransportEvent :=
  let routed :=
    match msg.id with
    | some i =>
      if i ∈ st.pendingIds then
        ({ st with pendingIds := st.pendingIds.erase i },
          [TransportEvent.completed i (handlerOutcome msg)])
      else (st, [])
    | none => (st, [])
  (routed.fst, routed.snd ++ (if st.hasUserOnMessage then [TransportEvent.userHook msg] else []))

/-
SSETransport.close(): clear the reconnect timer, mark disconnected, drop the
outbound queue, and delegate to the SDK transport's close().  Nothing in the
method touches `messageHandlers`, and no pending completion is produced.
-/
def SSETransport.close (st : SSETransportState) : SSETransportState × List TransportEvent :=
  ({ st with hasReconnectTimeout := false, isConnected := false, messageQueue := [] }, [])

/-- C1: on an inbound message whose id matches a pending entry, the transport
first completes that entry (resolving when the message has no `error` member,
rejecting when it does) and removes it from the pending table, and then
invokes the user `onMessage` hook with the raw message, so the completion
event precedes the hook event. -/
theorem inbound_completion_precedes_hook
    (st : SSETransportState) (msg : JSONRPCMessage) (i : RpcId)
    (hid : msg.id = some i) (hpend : i ∈ st.pendingIds)
    (hhook : st.hasUserOnMessage = true) (hnd : st.pendingIds.Nodup) :
    onInboundMessage st msg =
      ({ st with pendingIds := st.pendingIds.erase i },
        [TransportEvent.completed i (if msg.hasError then CompletionOutcome.rejected msg
            else CompletionOutcome.resolved msg),
          TransportEvent.userHook msg])
    ∧ i ∉ (onInboundMessage st msg).fst.pendingIds := by
  have hmain : onInboundMessage st msg =
      ({ st with pendingIds := st.pendingIds.erase i },
        [TransportEvent.completed i (handlerOutcome msg), TransportEvent.userHook msg]) := by
    simp [onInboundMessage, hid, hpend, hhook]
  refine ⟨?_, ?_⟩
  · rw [hmain]; simp [handlerOutcome]
  · rw [hmain]
    simp
    intro hmem
    exact absurd ((List.Nodup.mem_erase_iff hnd).mp hmem).left (by simp)

theorem inbound_completion_precedes_hook_witness :
    ((JSONRPCMessage.mk (some (RpcId.str "42")) false "result-payload").id
        = some (RpcId.str "42"))
    ∧ (RpcId.str "42") ∈ [RpcId.str "42", RpcId.num 7]
    ∧ (SSETransportState.mk true [] [RpcId.str "42", RpcId.num 7] true false).hasUserOnMessage
        = true
    ∧ ([RpcId.str "42", RpcId.num 7] : List RpcId).Nodup
    ∧ (onInboundMessage (SSETransportState.mk true [] [RpcId.str "42", RpcId.num 7] true false)
          (JSONRPCMessage.mk (some (RpcId.str "42")) false "result-payload") =
        (SSETransportState.mk true [] [RpcId.num 7] true false,
          [TransportEvent.completed (RpcId.str "42")
              (CompletionOutcome.resolved
                (JSONRPCMessage.mk (some (RpcId.str "42")) false "result-payload")),
            TransportEvent.userHook
              (JSONRPCMessage.mk (some (RpcId.str "42")) false "result-payload")])
      ∧ (RpcId.str "42") ∉ (onInboundMessage
            (SSETransportState.mk true [] [RpcId.str "42", RpcId.num 7] true false)
            (JSONRPCMessage.mk (some (RpcId.str "42")) false "result-payload")).fst.pendingIds) :=
  ⟨by decide, by decide, by decide, by decide, by
    have h := inbound_completion_precedes_hook
      (SSETransportState.mk true [] [RpcId.str "42", RpcId.num 7] true false)
      (JSONRPCMessage.mk (some (RpcId.str "42")) false "result-payload")
      (RpcId.str "42") (by decide) (by decide) (by decide) (by decide)
    exact ⟨by rw [h.1]; decide, h.2⟩⟩

/- A concrete transport state with one queued message and one pending request,
used to evaluate `close()`. -/
def closeExampleState : SSETransportState :=
  SSETransportState.mk true [JSONRPCMessage.mk none false "queued-notification"]
    [RpcId.str "r1"] false true

/-- C4 counterexample: the claim says `close()` completes every pending
request entry and leaves no pending entry waiting for its deadline; on the
code, closing a transport with the pending entry `"r1"` emits no completion
event and leaves the entry in the pending table. -/
theorem close_counterexample :
    (SSETransport.close closeExampleState).snd = []
    ∧ (SSETransport.close closeExampleState).fst.pendingIds = [RpcId.str "r1"]
    ∧ (SSETransport.close closeExampleState).fst.pendingIds ≠ [] := by
  refine ⟨rfl, rfl, ?_⟩
  decide

/-- C4 amended: `close()` cancels the reconnect timer, marks the transport
disconnected and clears the outbound message queue, but it neither completes
nor removes pending request entries: the pending table is left unchanged and
no completion event is emitted (each pending request completes only through a
later matching inbound message or its own timeout). -/
theorem close_clears_queue_not_pending (st : SSETransportState) :
    (SSETransport.close st).fst.isConnected = false
    ∧ (SSETransport.close st).fst.messageQueue = []
    ∧ (SSETransport.close st).fst.hasReconnectTimeout = false
    ∧ (SSETransport.close st).fst.pendingIds = st.pendingIds
    ∧ (SSETransport.close st).snd = [] := by
  simp [SSETransport.close]

/-
Capability aggregation for a virtual server (src/server/vmcp/instance.ts).

`aggregateCapabilities` iterates the definition's `sourceServerIds` in order;
for each source it asks the transport manager for the transport (missing →
throw), connects if needed (failure → throw), then fetches tools, prompts and
resources in that order over JSON-RPC; each per-source failure is caught and
the loop continues with the next source.  A response may throw, may lack the
`result.tools` / `result.prompts` / `result.resources` member (skipped without
error), or may deliver a list of records.  Emitted entries are filtered by
the aggregation rules and inserted first-wins into the single identifier-keyed
`capabilityMap` and the three aggregated arrays.
-/

structure Tool where
  name : String
  description : String
deriving DecidableEq

structure Prompt where
  name : String
  description : String
deriving DecidableEq

structure Resource where
  uri : String
  name : String
deriving DecidableEq

inductive AggregationRule
  | aggregate_all
  | include_tools (toolNames : List String)
  | include_prompts (promptNames : List String)
  | include_resources (resourceUris : List String)
deriving DecidableEq

structure VMCPDefinition where
  id : String
  name : String
  port : Nat
  sourceServerIds : List String
  aggregationRules : List AggregationRule
deriving DecidableEq

/- Outcome of one `transportManager.request(serverId, ...list)` call as seen
by `aggregateCapabilities`: the await may throw, the response may lack the
expected `result.<kind>` array, or it carries the list. -/
inductive FetchResult (α : Type)
  | throws
  | noField
  | ok (items : List α)
deriving DecidableEq

/- Behaviour of one upstream during aggregation: whether
`transportManager.getTransport` finds a transport, whether
`isTransportConnected` already holds, whether `transport.start()` succeeds,
and the three list responses. -/
structure SourceWorld where
  hasTransport : Bool
  connected : Bool
  startOk : Bool
  tools : FetchResult Tool
  prompts : FetchResult Prompt
  resources : FetchResult Resource

def World : Type := String → SourceWorld

def AggregationRule.isAggregateAll : AggregationRule → Bool
  | AggregationRule.aggregate_all => true
  | _ => false

def AggregationRule.isIncludeTools : AggregationRule → Bool
  | AggregationRule.include_tools _ => true
  | _ => false

def AggregationRule.isIncludePrompts : AggregationRule → Bool
  | AggregationRule.include_prompts _ => true
  | _ => false

def AggregationRule.isIncludeResources : AggregationRule → Bool
  | AggregationRule.include_resources _ => true
  | _ => false

/- The rules extracted at the top of `aggregateCapabilities` via
`aggregationRules.find(...)`. -/
structure RuleSetup where
  aggAll : Bool
  toolsRule : Option (List String)
  promptsRule : Option (List String)
  resourcesRule : Option (List String)

def ruleSetup (rules : List AggregationRule) : RuleSetup :=
  { aggAll := (rules.find? AggregationRule.isAggregateAll).isSome
    toolsRule :=
      match rules.find? AggregationRule.isIncludeTools with
      | some (AggregationRule.include_tools ns) => some ns
      | _ => none
    promptsRule :=
      match rules.find? AggregationRule.isIncludePrompts with
      | some (AggregationRule.include_prompts ns) => some ns
      | _ => none
    resourcesRule :=
      match rules.find? AggregationRule.isIncludeResources with
      | some (AggregationRule.include_resources us) => some us
      | _ => none }

structure AggState where
  aggregatedTools : List Tool
  aggregatedPrompts : List Prompt
  aggregatedResources : List Resource
  capabilityMap : List (String × String)
deriving DecidableEq

def AggState.empty : AggState := AggState.mk [] [] [] []

/- One `toolsToAdd.forEach` step: push the tool and record its route unless
the identifier is already mapped (first wins, later duplicates dropped). -/
def addTool (serverId : String) (st : AggState) (t : Tool) : AggState :=
  if mapHas st.capabilityMap t.name then st
  else { st with aggregatedTools := st.aggregatedTools ++ [t],
                 capabilityMap := st.capabilityMap ++ [(t.name, serverId)] }

def addPrompt (serverId : String) (st : AggState) (p : Prompt) : AggState :=
  if mapHas st.capabilityMap p.name then st
  else { st with aggregatedPrompts := st.aggregatedPrompts ++ [p],
                 capabilityMap := st.capabilityMap ++ [(p.name, serverId)] }

def addResource (serverId : String) (st : AggState) (r : Resource) : AggState :=
  if mapHas st.capabilityMap r.uri then st
  else { st with aggregatedResources := st.aggregatedResources ++ [r],
                 capabilityMap := st.capabilityMap ++ [(r.uri, serverId)] }

def toolsToAdd (aggAll : Bool) (rule : Option (List String)) (ts : List Tool) : List Tool :=
  if aggAll then ts
  else
    match rule with
    | some names => ts.filter (fun t => names.contains t.name)
    | none => []

def promptsToAdd (aggAll : Bool) (rule : Option (List String)) (ps : List Prompt) : List Prompt :=
  if aggAll then ps
  else
    match rule with
    | some names => ps.filter (fun p => names.contains p.name)
    | none => []

def resourcesToAdd (aggAll : Bool) (rule : Option (List String)) (rsrc : List Resource) :
    List Resource :=
  if aggAll then rsrc
  else
    match rule with
    | some uris => rsrc.filter (fun r => uris.contains r.uri)
    | none => []

/- The tools portion of the per-source loop body.  `none` means the
`tools/list` request threw, aborting the rest of this source's block. -/
def toolsPhase (aggAll : Bool) (rule : Option (List String)) (sw : SourceWorld) :
    Option (List Tool) :=
  if aggAll || rule.isSome then
    match sw.tools with
    | FetchResult.throws => none
    | FetchResult.noField => some []
    | FetchResult.ok ts => some (toolsToAdd aggAll rule ts)
  else some []

def promptsPhase (aggAll : Bool) (rule : Option (List String)) (sw : SourceWorld) :
    Option (List Prompt) :=
  if aggAll || rule.isSome then
    match sw.prompts with
    | FetchResult.throws => none
    | FetchResult.noField => some []
    | FetchResult.ok ps => some (promptsToAdd aggAll rule ps)
  else some []

def resourcesPhase (aggAll : Bool) (rule : Option (List String)) (sw : SourceWorld) :
    Option (List Resource) :=
  if aggAll || rule.isSome then
    match sw.resources with
    | FetchResult.throws => none
    | FetchResult.noField => some []
    | FetchResult.ok rsrc => some (resourcesToAdd aggAll rule rsrc)
  else some []

/- A source can be fetched from when a transport is registered and it is
either already connected or `start()` succeeds. -/
def sourceReachable (sw : SourceWorld) : Bool :=
  sw.hasTransport && (sw.connected || sw.startOk)

/- Body of `for (const serverId of this.definition.sourceServerIds)`: the
whole block sits in a try/catch, so a throw keeps the additions made so far
for this source and moves on; additions from earlier sources are never
discarded. -/
def processServer (rs : RuleSetup) (w : World) (st : AggState) (serverId : String) : AggState :=
  let sw := w serverId
  if sourceReachable sw then
    match toolsPhase rs.aggAll rs.toolsRule sw with
    | none => st
    | some ts =>
      let st1 := ts.foldl (addTool serverId) st
      match promptsPhase rs.aggAll rs.promptsRule sw with
      | none => st1
      | some ps =>
        let st2 := ps.foldl (addPrompt serverId) st1
        match resourcesPhase rs.aggAll rs.resourcesRule sw with
        | none => st2
        | some rsrc => rsrc.foldl (addResource serverId) st2
  else st

/- `aggregateCapabilities` without the final empty-view throw: clear the
previous arrays and map, then fold the per-source body over the sources. -/
def aggregateRaw (defn : VMCPDefinition) (w : World) : AggState :=
  defn.sourceServerIds.foldl (processServer (ruleSetup defn.aggregationRules) w) AggState.empty

def AggState.hasCapabilities (st : AggState) : Bool :=
  !st.aggregatedTools.isEmpty || !st.aggregatedPrompts.isEmpty
    || !st.aggregatedResources.isEmpty

def noCapAggMsg : String :=
  "No capabilities were successfully aggregated from any source server."

def noCapStartMsg : String :=
  "Cannot start vMCP instance: No capabilities available. Please select at least one capability."

def listenFailMsg : String := "listen EADDRINUSE"

def isNoCapabilitiesError (e : String) : Bool :=
  e == noCapAggMsg || e == noCapStartMsg

/- Full `aggregateCapabilities`: when `sourceServerIds` is empty the method
returns early (before the final check); otherwise it throws when nothing was
aggregated from any source. -/
def aggregateCapabilities (defn : VMCPDefinition) (w : World) : Except String AggState :=
  if defn.sourceServerIds.isEmpty then Except.ok (aggregateRaw defn w)
  else if (aggregateRaw defn w).aggregatedTools.isEmpty
      && (aggregateRaw defn w).aggregatedPrompts.isEmpty
      && (aggregateRaw defn w).aggregatedResources.isEmpty then
    Except.error noCapAggMsg
  else Except.ok (aggregateRaw defn w)

/- VMCPInstance.start: aggregate, fail when no capability is available, then
initialize the MCP handlers and bind the HTTP listener (`bindOk` is whether
`httpServer.listen` succeeds; the listener is created only after the
capability check, so a no-capabilities failure never leaves one running). -/
def VMCPInstance.start (defn : VMCPDefinition) (w : World) (bindOk : Bool) :
    Except String AggState :=
  match aggregateCapabilities defn w with
  | Except.error e => Except.error e
  | Except.ok st =>
    if !st.hasCapabilities then Except.error noCapStartMsg
    else if bindOk then Except.ok st
    else Except.error listenFailMsg

/- The MCP request-dispatcher handlers registered by
`initializeMcpServerLogic`: they read the instance state and never call
`aggregateCapabilities`. -/
def dispatchListTools (st : AggState) : List Tool := st.aggregatedTools

def dispatchListPrompts (st : AggState) : List Prompt := st.aggregatedPrompts

def dispatchListResources (st : AggState) : List Resource := st.aggregatedResources

/- Target-resolution part of `proxyRequest`: look the identifier up in the
routing map; for `resources/get` an unmapped `mcp://<source>/...` uri whose
`<source>` is among the definition's sources routes there as fallback. -/
def resolveProxyTarget (defn : VMCPDefinition) (st : AggState) (method ident : String) :
    Option String :=
  match mapGet st.capabilityMap ident with
  | some s => some s
  | none =>
    if method == "resources/get" && ident.startsWith "mcp://" then
      let host := (ident.drop 6).takeWhile (fun c => c ≠ '/')
      if (host != "") && defn.sourceServerIds.contains host then some host else none
    else none

/- The instance's public `listTools()`: it re-runs `aggregateCapabilities`
against the live upstreams before answering. -/
def VMCPInstance.listTools (defn : VMCPDefinition) (w : World) : Except String (List Tool) :=
  (aggregateCapabilities defn w).map AggState.aggregatedTools

/- Routing decision of the public `callTool(name, args)`: re-aggregate, then
look the tool up in the freshly rebuilt map. -/
def VMCPInstance.callToolRoute (defn : VMCPDefinition) (w : World) (toolName : String) :
    Except String String :=
  match aggregateCapabilities defn w with
  | Except.error e => Except.error e
  | Except.ok st =>
    match mapGet st.capabilityMap toolName with
    | none => Except.error ("Tool " ++ toolName ++ " not found")
    | some s => Except.ok s

/- Identifiers a source would emit (post-filter), in emission order: the
per-source block adds tools, then prompts, then resources, stopping at the
first list request that throws. -/
def serverOfferedIds (rs : RuleSetup) (sw : SourceWorld) : List String :=
  if sourceReachable sw then
    match toolsPhase rs.aggAll rs.toolsRule sw with
    | none => []
    | some ts =>
      ts.map Tool.name ++
        (match promptsPhase rs.aggAll rs.promptsRule sw with
         | none => []
         | some ps =>
           ps.map Prompt.name ++
             (match resourcesPhase rs.aggAll rs.resourcesRule sw with
              | none => []
              | some rsrc => rsrc.map Resource.uri))
  else []

def offeredBy (defn : VMCPDefinition) (w : World) (s : String) : List String :=
  serverOfferedIds (ruleSetup defn.aggregationRules) (w s)

/- The tool records a source would emit (post-filter). -/
def offeredToolsBy (defn : VMCPDefinition) (w : World) (s : String) : List Tool :=
  let rs := ruleSetup defn.aggregationRules
  if sourceReachable (w s) then (toolsPhase rs.aggAll rs.toolsRule (w s)).getD []
  else []

/- All identifiers listed by the aggregated view, tools then prompts then
resources. -/
def viewIds (st : AggState) : List String :=
  st.aggregatedTools.map Tool.name ++ st.aggregatedPrompts.map Prompt.name
    ++ st.aggregatedResources.map Resource.uri

/- Option-level characterization lemmas for the aggregation fold. -/

def optOr {α : Type} (a b : Option α) : Option α :=
  match a with
  | some v => some v
  | none => b

theorem optOr_some {α : Type} (v : α) (b : Option α) : optOr (some v) b = some v := rfl

theorem optOr_none {α : Type} (b : Option α) : optOr none b = b := rfl

theorem optOr_assoc {α : Type} (a b c : Option α) :
    optOr (optOr a b) c = optOr a (optOr b c) := by
  cases a <;> rfl

theorem optOr_if_if {α : Type} (c d : Bool) (v : α) :
    optOr (if c then some v else none) (if d then some v else none)
      = if (c || d) then some v else none := by
  cases c <;> cases d <;> rfl

theorem mapGet_append_optOr {α : Type} (m₁ m₂ : List (String × α)) (k : String) :
    mapGet (m₁ ++ m₂) k = optOr (mapGet m₁ k) (mapGet m₂ k) := by
  rw [mapGet_append]
  cases mapGet m₁ k <;> rfl

def idMatches (k : String) (n : String) : Bool := n == k

theorem addTool_mapGet (s : String) (st : AggState) (t : Tool) (k : String) :
    mapGet (addTool s st t).capabilityMap k =
      optOr (mapGet st.capabilityMap k) (if t.name == k then some s else none) := by
  unfold addTool
  cases hhas : mapHas st.capabilityMap t.name with
  | true =>
    simp only [hhas, if_true]
    cases hg : mapGet st.capabilityMap k with
    | some v => simp [optOr]
    | none =>
      cases htk : (t.name == k) with
      | true =>
        have : t.name = k := by simpa using htk
        subst this
        rw [mapHas_eq_isSome, hg] at hhas
        simp at hhas
      | false => simp [optOr]
  | false =>
    simp only [hhas, if_false, Bool.false_eq_true]
    rw [mapGet_append_optOr]
    rw [mapGet_cons]
    cases htk : (t.name == k) <;> simp [mapGet_nil, optOr]

theorem addPrompt_mapGet (s : String) (st : AggState) (p : Prompt) (k : String) :
    mapGet (addPrompt s st p).capabilityMap k =
      optOr (mapGet st.capabilityMap k) (if p.name == k then some s else none) := by
  unfold addPrompt
  cases hhas : mapHas st.capabilityMap p.name with
  | true =>
    simp only [hhas, if_true]
    cases hg : mapGet st.capabilityMap k with
    | some v => simp [optOr]
    | none =>
      cases htk : (p.name == k) with
      | true =>
        have : p.name = k := by simpa using htk
        subst this
        rw [mapHas_eq_isSome, hg] at hhas
        simp at hhas
      | false => simp [optOr]
  | false =>
    simp only [hhas, if_false, Bool.false_eq_true]
    rw [mapGet_append_optOr]
    rw [mapGet_cons]
    cases htk : (p.name == k) <;> simp [mapGet_nil, optOr]

theorem addResource_mapGet (s : String) (st : AggState) (r : Resource) (k : String) :
    mapGet (addResource s st r).capabilityMap k =
      optOr (mapGet st.capabilityMap k) (if r.uri == k then some s else none) := by
  unfold addResource
  cases hhas : mapHas st.capabilityMap r.uri with
  | true =>
    simp only [hhas, if_true]
    cases hg : mapGet st.capabilityMap k with
    | some v => simp [optOr]
    | none =>
      cases htk : (r.uri == k) with
      | true =>
        have : r.uri = k := by simpa using htk
        subst this
        rw [mapHas_eq_isSome, hg] at hhas
        simp at hhas
      | false => simp [optOr]
  | false =>
    simp only [hhas, if_false, Bool.false_eq_true]
    rw [mapGet_append_optOr]
    rw [mapGet_cons]
    cases htk : (r.uri == k) <;> simp [mapGet_nil, optOr]

theorem foldl_addTool_mapGet (s : String) (ts : List Tool) (st : AggState) (k : String) :
    mapGet ((ts.foldl (addTool s) st).capabilityMap) k =
      optOr (mapGet st.capabilityMap k)
        (if (ts.map Tool.name).any (idMatches k) then some s else none) := by
  induction ts generalizing st with
  | nil => cases hg : mapGet st.capabilityMap k <;> simp [optOr, hg]
  | cons t rest ih =>
    rw [List.foldl_cons, ih, addTool_mapGet, optOr_assoc, optOr_if_if]
    simp [idMatches]

theorem foldl_addPrompt_mapGet (s : String) (ps : List Prompt) (st : AggState) (k : String) :
    mapGet ((ps.foldl (addPrompt s) st).capabilityMap) k =
      optOr (mapGet st.capabilityMap k)
        (if (ps.map Prompt.name).any (idMatches k) then some s else none) := by
  induction ps generalizing st with
  | nil => cases hg : mapGet st.capabilityMap k <;> simp [optOr, hg]
  | cons p rest ih =>
    rw [List.foldl_cons, ih, addPrompt_mapGet, optOr_assoc, optOr_if_if]
    simp [idMatches]

theorem foldl_addResource_mapGet (s : String) (rsrc : List Resource) (st : AggState)
    (k : String) :
    mapGet ((rsrc.foldl (addResource s) st).capabilityMap) k =
      optOr (mapGet st.capabilityMap k)
        (if (rsrc.map Resource.uri).any (idMatches k) then some s else none) := by
  induction rsrc generalizing st with
  | nil => cases hg : mapGet st.capabilityMap k <;> simp [optOr, hg]
  | cons r rest ih =>
    rw [List.foldl_cons, ih, addResource_mapGet, optOr_assoc, optOr_if_if]
    simp [idMatches]

theorem processServer_mapGet (rs : RuleSetup) (w : World) (st : AggState) (s : String)
    (k : String) :
    mapGet ((processServer rs w st s).capabilityMap) k =
      optOr (mapGet st.capabilityMap k)
        (if (serverOfferedIds rs (w s)).any (idMatches k) then some s else none) := by
  unfold processServer serverOfferedIds
  cases hreach : sourceReachable (w s) with
  | false =>
    simp only [hreach, Bool.false_eq_true, if_false]
    cases hg : mapGet st.capabilityMap k <;> simp [optOr, hg]
  | true =>
    simp only [hreach, if_true]
    cases htp : toolsPhase rs.aggAll rs.toolsRule (w s) with
    | none =>
      simp only [htp]
      cases hg : mapGet st.capabilityMap k <;> simp [optOr, hg]
    | some ts =>
      simp only [htp]
      cases hpp : promptsPhase rs.aggAll rs.promptsRule (w s) with
      | none =>
        simp only [hpp]
        rw [foldl_addTool_mapGet]
        simp
      | some ps =>
        simp only [hpp]
        cases hrp : resourcesPhase rs.aggAll rs.resourcesRule (w s) with
        | none =>
          simp only [hrp]
          rw [foldl_addPrompt_mapGet, foldl_addTool_mapGet, optOr_assoc, optOr_if_if]
          simp [List.any_append]
        | some rsrc =>
          simp only [hrp]
          rw [foldl_addResource_mapGet, foldl_addPrompt_mapGet, foldl_addTool_mapGet,
            optOr_assoc, optOr_if_if, optOr_assoc, optOr_if_if]
          simp [List.any_append, Bool.or_assoc]

theorem foldl_processServer_mapGet (rs : RuleSetup) (w : World) (servers : List String)
    (st : AggState) (k : String) :
    mapGet ((servers.foldl (processServer rs w) st).capabilityMap) k =
      optOr (mapGet st.capabilityMap k)
        (servers.find? (fun s => (serverOfferedIds rs (w s)).any (idMatches k))) := by
  induction servers generalizing st with
  | nil => cases hg : mapGet st.capabilityMap k <;> simp [optOr, hg]
  | cons s rest ih =>
    rw [List.foldl_cons, ih, processServer_mapGet, optOr_assoc]
    cases hoff : (serverOfferedIds rs (w s)).any (idMatches k) with
    | true => simp [List.find?, hoff, optOr]
    | false => simp [List.find?, hoff, optOr]

/- The routing map of a freshly aggregated view resolves every identifier to
the first source, in `sourceServerIds` order, that emits that identifier. -/
theorem aggregateRaw_mapGet (defn : VMCPDefinition) (w : World) (k : String) :
    mapGet (aggregateRaw defn w).capabilityMap k =
      defn.sourceServerIds.find? (fun s => (offeredBy defn w s).any (idMatches k)) := by
  unfold aggregateRaw offeredBy
  rw [foldl_processServer_mapGet]
  simp [AggState.empty, mapGet_nil, optOr]

theorem nodup_append_singleton {α : Type} (l : List α) (x : α)
    (h : l.Nodup) (hx : x ∉ l) : (l ++ [x]).Nodup := by
  rw [List.nodup_append]
  refine ⟨h, List.nodup_singleton x, ?_⟩
  intro a ha hb
  simp at hb
  subst hb
  exact hx ha

/- Structural invariant of the aggregation state: routing-map keys are
unique, and each identifier occurs exactly as often in the aggregated view
as among the routing-map keys. -/
def viewMatchesMap (st : AggState) : Prop :=
  (mapKeys st.capabilityMap).Nodup
    ∧ ∀ k, (viewIds st).count k = (mapKeys st.capabilityMap).count k

theorem viewMatchesMap_empty : viewMatchesMap AggState.empty := by
  constructor
  · simp [AggState.empty, mapKeys]
  · intro k
    simp [AggState.empty, viewIds, mapKeys]

theorem mapKeys_append_pair {α : Type} (m : List (String × α)) (k : String) (v : α) :
    mapKeys (m ++ [(k, v)]) = mapKeys m ++ [k] := by
  simp [mapKeys]

theorem not_mem_keys_of_not_has {α : Type} (m : List (String × α)) (k : String)
    (h : mapHas m k = false) : k ∉ mapKeys m := by
  intro hmem
  exact absurd ((mapHas_iff_mem_keys m k).mpr hmem) (by simp [h])

theorem addTool_viewMatchesMap (s : String) (st : AggState) (t : Tool)
    (h : viewMatchesMap st) : viewMatchesMap (addTool s st t) := by
  unfold addTool
  cases hhas : mapHas st.capabilityMap t.name with
  | true => simpa [hhas] using h
  | false =>
    simp only [hhas, Bool.false_eq_true, if_false]
    constructor
    · rw [mapKeys_append_pair]
      exact nodup_append_singleton _ _ h.1 (not_mem_keys_of_not_has _ _ hhas)
    · intro k
      have h2 := h.2 k
      rw [mapKeys_append_pair]
      unfold viewIds at h2 ⊢
      simp only [List.map_append, List.count_append] at h2 ⊢
      simp only [List.map_cons, List.map_nil]
      omega

theorem addPrompt_viewMatchesMap (s : String) (st : AggState) (p : Prompt)
    (h : viewMatchesMap st) : viewMatchesMap (addPrompt s st p) := by
  unfold addPrompt
  cases hhas : mapHas st.capabilityMap p.name with
  | true => simpa [hhas] using h
  | false =>
    simp only [hhas, Bool.false_eq_true, if_false]
    constructor
    · rw [mapKeys_append_pair]
      exact nodup_append_singleton _ _ h.1 (not_mem_keys_of_not_has _ _ hhas)
    · intro k
      have h2 := h.2 k
      rw [mapKeys_append_pair]
      unfold viewIds at h2 ⊢
      simp only [List.map_append, List.count_append] at h2 ⊢
      simp only [List.map_cons, List.map_nil]
      omega

theorem addResource_viewMatchesMap (s : String) (st : AggState) (r : Resource)
    (h : viewMatchesMap st) : viewMatchesMap (addResource s st r) := by
  unfold addResource
  cases hhas : mapHas st.capabilityMap r.uri with
  | true => simpa [hhas] using h
  | false =>
    simp only [hhas, Bool.false_eq_true, if_false]
    constructor
    · rw [mapKeys_append_pair]
      exact nodup_append_singleton _ _ h.1 (not_mem_keys_of_not_has _ _ hhas)
    · intro k
      have h2 := h.2 k
      rw [mapKeys_append_pair]
      unfold viewIds at h2 ⊢
      simp only [List.map_append, List.count_append] at h2 ⊢
      simp only [List.map_cons, List.map_nil]
      omega

theorem foldl_addTool_viewMatchesMap (s : String) (ts : List Tool) (st : AggState)
    (h : viewMatchesMap st) : viewMatchesMap (ts.foldl (addTool s) st) := by
  induction ts generalizing st with
  | nil => exact h
  | cons t rest ih => exact ih _ (addTool_viewMatchesMap s st t h)

theorem foldl_addPrompt_viewMatchesMap (s : String) (ps : List Prompt) (st : AggState)
    (h : viewMatchesMap st) : viewMatchesMap (ps.foldl (addPrompt s) st) := by
  induction ps generalizing st with
  | nil => exact h
  | cons p rest ih => exact ih _ (addPrompt_viewMatchesMap s st p h)

theorem foldl_addResource_viewMatchesMap (s : String) (rsrc : List Resource) (st : AggState)
    (h : viewMatchesMap st) : viewMatchesMap (rsrc.foldl (addResource s) st) := by
  induction rsrc generalizing st with
  | nil => exact h
  | cons r rest ih => exact ih _ (addResource_viewMatchesMap s st r h)

theorem processServer_viewMatchesMap (rs : RuleSetup) (w : World) (st : AggState) (s : String)
    (h : viewMatchesMap st) : viewMatchesMap (processServer rs w st s) := by
  unfold processServer
  cases hreach : sourceReachable (w s) with
  | false => simpa [hreach] using h
  | true =>
    simp only [hreach, if_true]
    cases htp : toolsPhase rs.aggAll rs.toolsRule (w s) with
    | none => exact h
    | some ts =>
      simp only
      cases hpp : promptsPhase rs.aggAll rs.promptsRule (w s) with
      | none => exact foldl_addTool_viewMatchesMap s ts st h
      | some ps =>
        simp only
        cases hrp : resourcesPhase rs.aggAll rs.resourcesRule (w s) with
        | none =>
          exact foldl_addPrompt_viewMatchesMap s ps _ (foldl_addTool_viewMatchesMap s ts st h)
        | some rsrc =>
          exact foldl_addResource_viewMatchesMap s rsrc _
            (foldl_addPrompt_viewMatchesMap s ps _ (foldl_addTool_viewMatchesMap s ts st h))

theorem aggregateRaw_viewMatchesMap (defn : VMCPDefinition) (w : World) :
    viewMatchesMap (aggregateRaw defn w) := by
  unfold aggregateRaw
  generalize hstart : AggState.empty = st0
  have h0 : viewMatchesMap st0 := hstart ▸ viewMatchesMap_empty
  clear hstart
  induction defn.sourceServerIds generalizing st0 with
  | nil => exact h0
  | cons s rest ih =>
    rw [List.foldl_cons]
    exact ih _ (processServer_viewMatchesMap _ w st0 s h0)

/- Origin invariant: every aggregated tool is routed by the map to a source
that actually emitted it. -/
def toolsRouted (defn : VMCPDefinition) (w : World) (st : AggState) : Prop :=
  ∀ t, t ∈ st.aggregatedTools →
    ∃ s, mapGet st.capabilityMap t.name = some s ∧ t ∈ offeredToolsBy defn w s

theorem addTool_toolsRouted (defn : VMCPDefinition) (w : World) (s : String)
    (st : AggState) (t : Tool) (hoff : t ∈ offeredToolsBy defn w s)
    (h : toolsRouted defn w st) : toolsRouted defn w (addTool s st t) := by
  unfold addTool
  cases hhas : mapHas st.capabilityMap t.name with
  | true => simpa [hhas] using h
  | false =>
    simp only [hhas, Bool.false_eq_true, if_false]
    intro t' ht'
    simp at ht'
    rcases ht' with ht' | ht'
    · obtain ⟨s', hget, hofr⟩ := h t' ht'
      refine ⟨s', ?_, hofr⟩
      rw [mapGet_append_optOr, hget]
      rfl
    · subst ht'
      refine ⟨s, ?_, hoff⟩
      rw [mapGet_append_optOr, mapGet_eq_none_of_not_has _ _ hhas]
      simp [optOr, mapGet_cons]

theorem addPrompt_toolsRouted (defn : VMCPDefinition) (w : World) (s : String)
    (st : AggState) (p : Prompt)
    (h : toolsRouted defn w st) : toolsRouted defn w (addPrompt s st p) := by
  unfold addPrompt
  cases hhas : mapHas st.capabilityMap p.name with
  | true => simpa [hhas] using h
  | false =>
    simp only [hhas, Bool.false_eq_true, if_false]
    intro t' ht'
    simp at ht'
    obtain ⟨s', hget, hofr⟩ := h t' ht'
    refine ⟨s', ?_, hofr⟩
    rw [mapGet_append_optOr, hget]
    rfl

theorem addResource_toolsRouted (defn : VMCPDefinition) (w : World) (s : String)
    (st : AggState) (r : Resource)
    (h : toolsRouted defn w st) : toolsRouted defn w (addResource s st r) := by
  unfold addResource
  cases hhas : mapHas st.capabilityMap r.uri with
  | true => simpa [hhas] using h
  | false =>
    simp only [hhas, Bool.false_eq_true, if_false]
    intro t' ht'
    simp at ht'
    obtain ⟨s', hget, hofr⟩ := h t' ht'
    refine ⟨s', ?_, hofr⟩
    rw [mapGet_append_optOr, hget]
    rfl

theorem foldl_addTool_toolsRouted (defn : VMCPDefinition) (w : World) (s : String)
    (ts : List Tool) (st : AggState) (hts : ∀ t ∈ ts, t ∈ offeredToolsBy defn w s)
    (h : toolsRouted defn w st) : toolsRouted defn w (ts.foldl (addTool s) st) := by
  induction ts generalizing st with
  | nil => exact h
  | cons t rest ih =>
    rw [List.foldl_cons]
    exact ih _ (fun u hu => hts u (List.mem_cons_of_mem t hu))
      (addTool_toolsRouted defn w s st t (hts t (List.mem_cons_self t rest)) h)

theorem foldl_addPrompt_toolsRouted (defn : VMCPDefinition) (w : World) (s : String)
    (ps : List Prompt) (st : AggState)
    (h : toolsRouted defn w st) : toolsRouted defn w (ps.foldl (addPrompt s) st) := by
  induction ps generalizing st with
  | nil => exact h
  | cons p rest ih =>
    rw [List.foldl_cons]
    exact ih _ (addPrompt_toolsRouted defn w s st p h)

theorem foldl_addResource_toolsRouted (defn : VMCPDefinition) (w : World) (s : String)
    (rsrc : List Resource) (st : AggState)
    (h : toolsRouted defn w st) : toolsRouted defn w (rsrc.foldl (addResource s) st) := by
  induction rsrc generalizing st with
  | nil => exact h
  | cons r rest ih =>
    rw [List.foldl_cons]
    exact ih _ (addResource_toolsRouted defn w s st r h)

theorem processServer_toolsRouted (defn : VMCPDefinition) (w : World) (st : AggState)
    (s : String) (h : toolsRouted defn w st) :
    toolsRouted defn w (processServer (ruleSetup defn.aggregationRules) w st s) := by
  unfold processServer
  cases hreach : sourceReachable (w s) with
  | false => simpa [hreach] using h
  | true =>
    simp only [hreach, if_true]
    cases htp : toolsPhase (ruleSetup defn.aggregationRules).aggAll
        (ruleSetup defn.aggregationRules).toolsRule (w s) with
    | none => exact h
    | some ts =>
      have hts : ∀ t ∈ ts, t ∈ offeredToolsBy defn w s := by
        intro t ht
        unfold offeredToolsBy
        simp [hreach, htp]
        exact ht
      simp only
      cases hpp : promptsPhase (ruleSetup defn.aggregationRules).aggAll
          (ruleSetup defn.aggregationRules).promptsRule (w s) with
      | none => exact foldl_addTool_toolsRouted defn w s ts st hts h
      | some ps =>
        simp only
        cases hrp : resourcesPhase (ruleSetup defn.aggregationRules).aggAll
            (ruleSetup defn.aggregationRules).resourcesRule (w s) with
        | none =>
          exact foldl_addPrompt_toolsRouted defn w s ps _
            (foldl_addTool_toolsRouted defn w s ts st hts h)
        | some rsrc =>
          exact foldl_addResource_toolsRouted defn w s rsrc _
            (foldl_addPrompt_toolsRouted defn w s ps _
              (foldl_addTool_toolsRouted defn w s ts st hts h))

theorem aggregateRaw_toolsRouted (defn : VMCPDefinition) (w : World) :
    toolsRouted defn w (aggregateRaw defn w) := by
  unfold aggregateRaw
  generalize hstart : AggState.empty = st0
  have h0 : toolsRouted defn w st0 := by
    subst hstart
    intro t ht
    simp [AggState.empty] at ht
  clear hstart
  induction defn.sourceServerIds generalizing st0 with
  | nil => exact h0
  | cons s rest ih =>
    rw [List.foldl_cons]
    exact ih _ (processServer_toolsRouted defn w st0 s h0)

/- The prompt and resource records a source would emit (post-filter),
mirroring `offeredToolsBy`; a throwing `tools/list` (resp. `prompts/list`)
aborts the source's block before prompts (resp. resources) are fetched. -/
def offeredPromptsBy (defn : VMCPDefinition) (w : World) (s : String) : List Prompt :=
  let rs := ruleSetup defn.aggregationRules
  if sourceReachable (w s) then
    match toolsPhase rs.aggAll rs.toolsRule (w s) with
    | none => []
    | some _ => (promptsPhase rs.aggAll rs.promptsRule (w s)).getD []
  else []

def offeredResourcesBy (defn : VMCPDefinition) (w : World) (s : String) : List Resource :=
  let rs := ruleSetup defn.aggregationRules
  if sourceReachable (w s) then
    match toolsPhase rs.aggAll rs.toolsRule (w s) with
    | none => []
    | some _ =>
      match promptsPhase rs.aggAll rs.promptsRule (w s) with
      | none => []
      | some _ => (resourcesPhase rs.aggAll rs.resourcesRule (w s)).getD []
  else []

/- Origin invariant for prompts and resources, mirroring `toolsRouted`. -/
def promptsRouted (defn : VMCPDefinition) (w : World) (st : AggState) : Prop :=
  ∀ p, p ∈ st.aggregatedPrompts →
    ∃ s, mapGet st.capabilityMap p.name = some s ∧ p ∈ offeredPromptsBy defn w s

def resourcesRouted (defn : VMCPDefinition) (w : World) (st : AggState) : Prop :=
  ∀ r, r ∈ st.aggregatedResources →
    ∃ s, mapGet st.capabilityMap r.uri = some s ∧ r ∈ offeredResourcesBy defn w s

theorem addOther_promptsRouted (defn : VMCPDefinition) (w : World)
    (st st' : AggState)
    (hp : st'.aggregatedPrompts = st.aggregatedPrompts)
    (hm : ∀ k v, mapGet st.capabilityMap k = some v → mapGet st'.capabilityMap k = some v)
    (h : promptsRouted defn w st) : promptsRouted defn w st' := by
  intro p hp'
  rw [hp] at hp'
  obtain ⟨s', hget, hofr⟩ := h p hp'
  exact ⟨s', hm _ _ hget, hofr⟩

theorem addOther_resourcesRouted (defn : VMCPDefinition) (w : World)
    (st st' : AggState)
    (hr : st'.aggregatedResources = st.aggregatedResources)
    (hm : ∀ k v, mapGet st.capabilityMap k = some v → mapGet st'.capabilityMap k = some v)
    (h : resourcesRouted defn w st) : resourcesRouted defn w st' := by
  intro r hr'
  rw [hr] at hr'
  obtain ⟨s', hget, hofr⟩ := h r hr'
  exact ⟨s', hm _ _ hget, hofr⟩

theorem addTool_mapGet_mono (s : String) (st : AggState) (t : Tool) (k : String) (v : String)
    (h : mapGet st.capabilityMap k = some v) :
    mapGet (addTool s st t).capabilityMap k = some v := by
  rw [addTool_mapGet, h]
  rfl

theorem addPrompt_mapGet_mono (s : String) (st : AggState) (p : Prompt) (k : String)
    (v : String) (h : mapGet st.capabilityMap k = some v) :
    mapGet (addPrompt s st p).capabilityMap k = some v := by
  rw [addPrompt_mapGet, h]
  rfl

theorem addResource_mapGet_mono (s : String) (st : AggState) (r : Resource) (k : String)
    (v : String) (h : mapGet st.capabilityMap k = some v) :
    mapGet (addResource s st r).capabilityMap k = some v := by
  rw [addResource_mapGet, h]
  rfl

theorem addTool_tools_eq (s : String) (st : AggState) (t : Tool) :
    (addTool s st t).aggregatedPrompts = st.aggregatedPrompts
      ∧ (addTool s st t).aggregatedResources = st.aggregatedResources := by
  unfold addTool
  cases mapHas st.capabilityMap t.name <;> simp

theorem addPrompt_others_eq (s : String) (st : AggState) (p : Prompt) :
    (addPrompt s st p).aggregatedTools = st.aggregatedTools
      ∧ (addPrompt s st p).aggregatedResources = st.aggregatedResources := by
  unfold addPrompt
  cases mapHas st.capabilityMap p.name <;> simp

theorem addResource_others_eq (s : String) (st : AggState) (r : Resource) :
    (addResource s st r).aggregatedTools = st.aggregatedTools
      ∧ (addResource s st r).aggregatedPrompts = st.aggregatedPrompts := by
  unfold addResource
  cases mapHas st.capabilityMap r.uri <;> simp

theorem addPrompt_promptsRouted (defn : VMCPDefinition) (w : World) (s : String)
    (st : AggState) (p : Prompt) (hoff : p ∈ offeredPromptsBy defn w s)
    (h : promptsRouted defn w st) : promptsRouted defn w (addPrompt s st p) := by
  unfold addPrompt
  cases hhas : mapHas st.capabilityMap p.name with
  | true => simpa [hhas] using h
  | false =>
    simp only [hhas, Bool.false_eq_true, if_false]
    intro p' hp'
    simp at hp'
    rcases hp' with hp' | hp'
    · obtain ⟨s', hget, hofr⟩ := h p' hp'
      refine ⟨s', ?_, hofr⟩
      rw [mapGet_append_optOr, hget]
      rfl
    · subst hp'
      refine ⟨s, ?_, hoff⟩
      rw [mapGet_append_optOr, mapGet_eq_none_of_not_has _ _ hhas]
      simp [optOr, mapGet_cons]

theorem addResource_resourcesRouted (defn : VMCPDefinition) (w : World) (s : String)
    (st : AggState) (r : Resource) (hoff : r ∈ offeredResourcesBy defn w s)
    (h : resourcesRouted defn w st) : resourcesRouted defn w (addResource s st r) := by
  unfold addResource
  cases hhas : mapHas st.capabilityMap r.uri with
  | true => simpa [hhas] using h
  | false =>
    simp only [hhas, Bool.false_eq_true, if_false]
    intro r' hr'
    simp at hr'
    rcases hr' with hr' | hr'
    · obtain ⟨s', hget, hofr⟩ := h r' hr'
      refine ⟨s', ?_, hofr⟩
      rw [mapGet_append_optOr, hget]
      rfl
    · subst hr'
      refine ⟨s, ?_, hoff⟩
      rw [mapGet_append_optOr, mapGet_eq_none_of_not_has _ _ hhas]
      simp [optOr, mapGet_cons]

theorem foldl_addTool_promptsRouted (defn : VMCPDefinition) (w : World) (s : String)
    (ts : List Tool) (st : AggState)
    (h : promptsRouted defn w st) : promptsRouted defn w (ts.foldl (addTool s) st) := by
  induction ts generalizing st with
  | nil => exact h
  | cons t rest ih =>
    rw [List.foldl_cons]
    exact ih _ (addOther_promptsRouted defn w st (addTool s st t)
      (addTool_tools_eq s st t).1 (fun k v hv => addTool_mapGet_mono s st t k v hv) h)

theorem foldl_addResource_promptsRouted (defn : VMCPDefinition) (w : World) (s : String)
    (rsrc : List Resource) (st : AggState)
    (h : promptsRouted defn w st) : promptsRouted defn w (rsrc.foldl (addResource s) st) := by
  induction rsrc generalizing st with
  | nil => exact h
  | cons r rest ih =>
    rw [List.foldl_cons]
    exact ih _ (addOther_promptsRouted defn w st (addResource s st r)
      (addResource_others_eq s st r).2 (fun k v hv => addResource_mapGet_mono s st r k v hv) h)

theorem foldl_addPrompt_promptsRouted (defn : VMCPDefinition) (w : World) (s : String)
    (ps : List Prompt) (st : AggState) (hps : ∀ p ∈ ps, p ∈ offeredPromptsBy defn w s)
    (h : promptsRouted defn w st) : promptsRouted defn w (ps.foldl (addPrompt s) st) := by
  induction ps generalizing st with
  | nil => exact h
  | cons p rest ih =>
    rw [List.foldl_cons]
    exact ih _ (fun u hu => hps u (List.mem_cons_of_mem p hu))
      (addPrompt_promptsRouted defn w s st p (hps p (List.mem_cons_self p rest)) h)

theorem foldl_addTool_resourcesRouted (defn : VMCPDefinition) (w : World) (s : String)
    (ts : List Tool) (st : AggState)
    (h : resourcesRouted defn w st) : resourcesRouted defn w (ts.foldl (addTool s) st) := by
  induction ts generalizing st with
  | nil => exact h
  | cons t rest ih =>
    rw [List.foldl_cons]
    exact ih _ (addOther_resourcesRouted defn w st (addTool s st t)
      (addTool_tools_eq s st t).2 (fun k v hv => addTool_mapGet_mono s st t k v hv) h)

theorem foldl_addPrompt_resourcesRouted (defn : VMCPDefinition) (w : World) (s : String)
    (ps : List Prompt) (st : AggState)
    (h : resourcesRouted defn w st) : resourcesRouted defn w (ps.foldl (addPrompt s) st) := by
  induction ps generalizing st with
  | nil => exact h
  | cons p rest ih =>
    rw [List.foldl_cons]
    exact ih _ (addOther_resourcesRouted defn w st (addPrompt s st p)
      (addPrompt_others_eq s st p).2 (fun k v hv => addPrompt_mapGet_mono s st p k v hv) h)

theorem foldl_addResource_resourcesRouted (defn : VMCPDefinition) (w : World) (s : String)
    (rsrc : List Resource) (st : AggState)
    (hrs : ∀ r ∈ rsrc, r ∈ offeredResourcesBy defn w s)
    (h : resourcesRouted defn w st) :
    resourcesRouted defn w (rsrc.foldl (addResource s) st) := by
  induction rsrc generalizing st with
  | nil => exact h
  | cons r rest ih =>
    rw [List.foldl_cons]
    exact ih _ (fun u hu => hrs u (List.mem_cons_of_mem r hu))
      (addResource_resourcesRouted defn w s st r (hrs r (List.mem_cons_self r rest)) h)

theorem processServer_promptsRouted (defn : VMCPDefinition) (w : World) (st : AggState)
    (s : String) (h : promptsRouted defn w st) :
    promptsRouted defn w (processServer (ruleSetup defn.aggregationRules) w st s) := by
  unfold processServer
  cases hreach : sourceReachable (w s) with
  | false => simpa [hreach] using h
  | true =>
    simp only [hreach, if_true]
    cases htp : toolsPhase (ruleSetup defn.aggregationRules).aggAll
        (ruleSetup defn.aggregationRules).toolsRule (w s) with
    | none => exact h
    | some ts =>
      simp only
      cases hpp : promptsPhase (ruleSetup defn.aggregationRules).aggAll
          (ruleSetup defn.aggregationRules).promptsRule (w s) with
      | none => exact foldl_addTool_promptsRouted defn w s ts st h
      | some ps =>
        have hps : ∀ p ∈ ps, p ∈ offeredPromptsBy defn w s := by
          intro p hp
          unfold offeredPromptsBy
          simp [hreach, htp, hpp]
          exact hp
        simp only
        cases hrp : resourcesPhase (ruleSetup defn.aggregationRules).aggAll
            (ruleSetup defn.aggregationRules).resourcesRule (w s) with
        | none =>
          exact foldl_addPrompt_promptsRouted defn w s ps _ hps
            (foldl_addTool_promptsRouted defn w s ts st h)
        | some rsrc =>
          exact foldl_addResource_promptsRouted defn w s rsrc _
            (foldl_addPrompt_promptsRouted defn w s ps _ hps
              (foldl_addTool_promptsRouted defn w s ts st h))

theorem processServer_resourcesRouted (defn : VMCPDefinition) (w : World) (st : AggState)
    (s : String) (h : resourcesRouted defn w st) :
    resourcesRouted defn w (processServer (ruleSetup defn.aggregationRules) w st s) := by
  unfold processServer
  cases hreach : sourceReachable (w s) with
  | false => simpa [hreach] using h
  | true =>
    simp only [hreach, if_true]
    cases htp : toolsPhase (ruleSetup defn.aggregationRules).aggAll
        (ruleSetup defn.aggregationRules).toolsRule (w s) with
    | none => exact h
    | some ts =>
      simp only
      cases hpp : promptsPhase (ruleSetup defn.aggregationRules).aggAll
          (ruleSetup defn.aggregationRules).promptsRule (w s) with
      | none => exact foldl_addTool_resourcesRouted defn w s ts st h
      | some ps =>
        simp only
        cases hrp : resourcesPhase (ruleSetup defn.aggregationRules).aggAll
            (ruleSetup defn.aggregationRules).resourcesRule (w s) with
        | none =>
          exact foldl_addPrompt_resourcesRouted defn w s ps _
            (foldl_addTool_resourcesRouted defn w s ts st h)
        | some rsrc =>
          have hrs : ∀ r ∈ rsrc, r ∈ offeredResourcesBy defn w s := by
            intro r hr
            unfold offeredResourcesBy
            simp [hreach, htp, hpp, hrp]
            exact hr
          exact foldl_addResource_resourcesRouted defn w s rsrc _ hrs
            (foldl_addPrompt_resourcesRouted defn w s ps _
              (foldl_addTool_resourcesRouted defn w s ts st h))

theorem aggregateRaw_promptsRouted (defn : VMCPDefinition) (w : World) :
    promptsRouted defn w (aggregateRaw defn w) := by
  unfold aggregateRaw
  generalize hstart : AggState.empty = st0
  have h0 : promptsRouted defn w st0 := by
    subst hstart
    intro p hp
    simp [AggState.empty] at hp
  clear hstart
  induction defn.sourceServerIds generalizing st0 with
  | nil => exact h0
  | cons s rest ih =>
    rw [List.foldl_cons]
    exact ih _ (processServer_promptsRouted defn w st0 s h0)

theorem aggregateRaw_resourcesRouted (defn : VMCPDefinition) (w : World) :
    resourcesRouted defn w (aggregateRaw defn w) := by
  unfold aggregateRaw
  generalize hstart : AggState.empty = st0
  have h0 : resourcesRouted defn w st0 := by
    subst hstart
    intro r hr
    simp [AggState.empty] at hr
  clear hstart
  induction defn.sourceServerIds generalizing st0 with
  | nil => exact h0
  | cons s rest ih =>
    rw [List.foldl_cons]
    exact ih _ (processServer_resourcesRouted defn w st0 s h0)

/-- C5: when several sources expose a capability with the same identifier,
the routing map resolves the identifier to the first source, in
`sourceServerIds` order, that emitted it; `proxyRequest` for `tools/call`,
`prompts/get` and `resources/get` all route there; the aggregated view keeps
at most one entry for the identifier; and every aggregated tool, prompt or
resource carrying the identifier was emitted by that first source (later
duplicates are dropped silently). -/
theorem first_source_wins (defn : VMCPDefinition) (w : World) (k s : String)
    (h : defn.sourceServerIds.find?
        (fun s => (offeredBy defn w s).any (idMatches k)) = some s) :
    mapGet (aggregateRaw defn w).capabilityMap k = some s
    ∧ resolveProxyTarget defn (aggregateRaw defn w) "tools/call" k = some s
    ∧ resolveProxyTarget defn (aggregateRaw defn w) "prompts/get" k = some s
    ∧ resolveProxyTarget defn (aggregateRaw defn w) "resources/get" k = some s
    ∧ (viewIds (aggregateRaw defn w)).count k ≤ 1
    ∧ (∀ t, t ∈ (aggregateRaw defn w).aggregatedTools → t.name = k →
        t ∈ offeredToolsBy defn w s)
    ∧ (∀ p, p ∈ (aggregateRaw defn w).aggregatedPrompts → p.name = k →
        p ∈ offeredPromptsBy defn w s)
    ∧ ∀ r, r ∈ (aggregateRaw defn w).aggregatedResources → r.uri = k →
        r ∈ offeredResourcesBy defn w s := by
  have hget : mapGet (aggregateRaw defn w).capabilityMap k = some s := by
    rw [aggregateRaw_mapGet]
    exact h
  refine ⟨hget, ?_, ?_, ?_, ?_, ?_, ?_, ?_⟩
  · simp [resolveProxyTarget, hget]
  · simp [resolveProxyTarget, hget]
  · simp [resolveProxyTarget, hget]
  · have hinv := aggregateRaw_viewMatchesMap defn w
    rw [hinv.2 k]
    exact List.nodup_iff_count_le_one.mp hinv.1 k
  · intro t ht hname
    obtain ⟨s', hget', hoff⟩ := aggregateRaw_toolsRouted defn w t ht
    rw [hname, hget] at hget'
    have : s = s' := by injection hget'
    rw [this]
    exact hoff
  · intro p hp hname
    obtain ⟨s', hget', hoff⟩ := aggregateRaw_promptsRouted defn w p hp
    rw [hname, hget] at hget'
    have : s = s' := by injection hget'
    rw [this]
    exact hoff
  · intro r hr huri
    obtain ⟨s', hget', hoff⟩ := aggregateRaw_resourcesRouted defn w r hr
    rw [huri, hget] at hget'
    have : s = s' := by injection hget'
    rw [this]
    exact hoff

def c5ToolU1 : Tool := Tool.mk "echo" "echo from U1"

def c5ToolU2 : Tool := Tool.mk "echo" "echo from U2"

def c5Defn : VMCPDefinition :=
  VMCPDefinition.mk "v1" "vmcp-one" 5001 ["U1", "U2"] [AggregationRule.aggregate_all]

def c5World : World := fun s =>
  if s == "U1" then
    SourceWorld.mk true true true (FetchResult.ok [c5ToolU1]) FetchResult.noField
      FetchResult.noField
  else
    SourceWorld.mk true true true (FetchResult.ok [c5ToolU2]) FetchResult.noField
      FetchResult.noField

theorem first_source_wins_witness :
    (c5Defn.sourceServerIds.find?
        (fun s => (offeredBy c5Defn c5World s).any (idMatches "echo")) = some "U1")
    ∧ (mapGet (aggregateRaw c5Defn c5World).capabilityMap "echo" = some "U1"
      ∧ resolveProxyTarget c5Defn (aggregateRaw c5Defn c5World) "tools/call" "echo" = some "U1"
      ∧ resolveProxyTarget c5Defn (aggregateRaw c5Defn c5World) "prompts/get" "echo" = some "U1"
      ∧ resolveProxyTarget c5Defn (aggregateRaw c5Defn c5World) "resources/get" "echo"
          = some "U1"
      ∧ (viewIds (aggregateRaw c5Defn c5World)).count "echo" ≤ 1
      ∧ (∀ t, t ∈ (aggregateRaw c5Defn c5World).aggregatedTools → t.name = "echo" →
          t ∈ offeredToolsBy c5Defn c5World "U1")
      ∧ (∀ p, p ∈ (aggregateRaw c5Defn c5World).aggregatedPrompts → p.name = "echo" →
          p ∈ offeredPromptsBy c5Defn c5World "U1")
      ∧ ∀ r, r ∈ (aggregateRaw c5Defn c5World).aggregatedResources → r.uri = "echo" →
          r ∈ offeredResourcesBy c5Defn c5World "U1") :=
  ⟨by decide, first_source_wins c5Defn c5World "echo" "U1" (by decide)⟩

def c8Defn : VMCPDefinition :=
  VMCPDefinition.mk "v8" "vmcp-eight" 5008 ["s1"] [AggregationRule.aggregate_all]

def c8World : World := fun _ =>
  SourceWorld.mk true true true (FetchResult.ok [Tool.mk "x" "the tool x"])
    (FetchResult.ok [Prompt.mk "x" "the prompt x"]) FetchResult.noField

/-- C8 counterexample: the claim says the routing map is keyed by the pair
(capability-kind, identifier) so that a tool and a prompt sharing a name each
receive their own entry and both appear in the aggregated view; on the code
the map is keyed by the identifier alone: with source `s1` exposing both tool
`x` and prompt `x` under `aggregate_all`, the prompt is dropped from the view
and only one routing entry exists. -/
theorem kind_keyed_map_counterexample :
    (aggregateRaw c8Defn c8World).aggregatedTools = [Tool.mk "x" "the tool x"]
    ∧ (aggregateRaw c8Defn c8World).aggregatedPrompts = []
    ∧ (aggregateRaw c8Defn c8World).capabilityMap = [("x", "s1")] := by
  refine ⟨rfl, rfl, rfl⟩

/-- C8 (amended): the routing map is keyed by the identifier alone, shared
across the three capability kinds; every identifier has at most one routing
entry, each identifier occurs in the aggregated view exactly as often as
among the routing-map keys (so cross-kind name collisions keep only one
entry), and each identifier resolves to the first source, in order, that
emitted it, kinds being scanned tools before prompts before resources. -/
theorem routing_map_identifier_keyed (defn : VMCPDefinition) (w : World) :
    (mapKeys (aggregateRaw defn w).capabilityMap).Nodup
    ∧ (∀ k, (viewIds (aggregateRaw defn w)).count k
        = (mapKeys (aggregateRaw defn w).capabilityMap).count k)
    ∧ ∀ k, mapGet (aggregateRaw defn w).capabilityMap k =
        defn.sourceServerIds.find? (fun s => (offeredBy defn w s).any (idMatches k)) := by
  refine ⟨(aggregateRaw_viewMatchesMap defn w).1, (aggregateRaw_viewMatchesMap defn w).2, ?_⟩
  intro k
  exact aggregateRaw_mapGet defn w k

/- Helper shared by the startup claims: when the freshly aggregated view is
non-empty, a `start` failure is never a no-capabilities failure. -/
theorem start_error_not_noCap (defn : VMCPDefinition) (w : World) (bindOk : Bool)
    (hcap : (aggregateRaw defn w).hasCapabilities = true) :
    ∀ e, VMCPInstance.start defn w bindOk = Except.error e →
      isNoCapabilitiesError e = false := by
  intro e he
  unfold AggState.hasCapabilities at hcap
  have hne : ((aggregateRaw defn w).aggregatedTools.isEmpty
      && (aggregateRaw defn w).aggregatedPrompts.isEmpty
      && (aggregateRaw defn w).aggregatedResources.isEmpty) = false := by
    revert hcap
    cases (aggregateRaw defn w).aggregatedTools.isEmpty <;>
      cases (aggregateRaw defn w).aggregatedPrompts.isEmpty <;>
        cases (aggregateRaw defn w).aggregatedResources.isEmpty <;> simp
  unfold VMCPInstance.start aggregateCapabilities at he
  simp only [hne, Bool.false_eq_true, if_false, ite_self, AggState.hasCapabilities,
    hcap, Bool.not_true] at he
  cases bindOk with
  | true => simp at he
  | false =>
    simp at he
    rw [← he]
    decide

/-- C6: when aggregation produces an empty view (no tools, prompts or
resources), `start` fails with the no-capabilities error (via the
`aggregateCapabilities` throw when sources exist, via the `hasCapabilities`
guard otherwise), and since the HTTP listener is created only after that
guard no listener is left running; when the view is non-empty, a `start`
failure is never a no-capabilities failure. -/
theorem start_fails_on_empty_view (defn : VMCPDefinition) (w : World) (bindOk : Bool) :
    ((aggregateRaw defn w).hasCapabilities = false →
      VMCPInstance.start defn w bindOk =
        Except.error (if defn.sourceServerIds.isEmpty then noCapStartMsg else noCapAggMsg))
    ∧ ((aggregateRaw defn w).hasCapabilities = true →
      ∀ e, VMCPInstance.start defn w bindOk = Except.error e →
        isNoCapabilitiesError e = false) := by
  constructor
  · intro hcap
    unfold AggState.hasCapabilities at hcap
    cases h1 : (aggregateRaw defn w).aggregatedTools.isEmpty <;>
      cases h2 : (aggregateRaw defn w).aggregatedPrompts.isEmpty <;>
        cases h3 : (aggregateRaw defn w).aggregatedResources.isEmpty <;>
          rw [h1, h2, h3] at hcap <;>
            first
              | exact absurd hcap (by decide)
              | cases hsrc : defn.sourceServerIds.isEmpty <;>
                  simp [VMCPInstance.start, aggregateCapabilities, AggState.hasCapabilities,
                    h1, h2, h3, hsrc]
  · exact start_error_not_noCap defn w bindOk

def c6Defn : VMCPDefinition :=
  VMCPDefinition.mk "v6" "vmcp-six" 5006 ["s1"] [AggregationRule.aggregate_all]

def c6World : World := fun _ =>
  SourceWorld.mk true true true FetchResult.noField FetchResult.noField FetchResult.noField

theorem start_fails_on_empty_view_witness :
    ((aggregateRaw c6Defn c6World).hasCapabilities = false)
    ∧ VMCPInstance.start c6Defn c6World true =
        Except.error (if c6Defn.sourceServerIds.isEmpty then noCapStartMsg else noCapAggMsg) :=
  ⟨by decide, (start_fails_on_empty_view c6Defn c6World true).1 (by decide)⟩

def c2ToolA : Tool := Tool.mk "a" "tool a"

def c2ToolB : Tool := Tool.mk "b" "tool b"

def c2Defn : VMCPDefinition :=
  VMCPDefinition.mk "v2" "vmcp-two" 5002 ["S"] [AggregationRule.aggregate_all]

def c2WorldBefore : World := fun _ =>
  SourceWorld.mk true true true (FetchResult.ok [c2ToolA]) FetchResult.noField
    FetchResult.noField

def c2WorldAfter : World := fun _ =>
  SourceWorld.mk true true true (FetchResult.ok [c2ToolA, c2ToolB]) FetchResult.noField
    FetchResult.noField

def c2StartState : AggState := AggState.mk [c2ToolA] [] [] [("a", "S")]

/-- C2 counterexample: the claim says a running instance's view stays frozen
at start, so a vMCP started before an upstream gains a capability still lists
exactly the start-time capabilities; on the code the public `listTools()`
re-runs `aggregateCapabilities` against the live upstream: started when `S`
exposed only tool `a`, the instance's `listTools()` after `S` gains `b`
returns `[a, b]`, not the start-time `[a]`. -/
theorem view_not_frozen_counterexample :
    VMCPInstance.start c2Defn c2WorldBefore true = Except.ok c2StartState
    ∧ c2StartState.aggregatedTools = [c2ToolA]
    ∧ VMCPInstance.listTools c2Defn c2WorldAfter = Except.ok [c2ToolA, c2ToolB]
    ∧ [c2ToolA, c2ToolB] ≠ c2StartState.aggregatedTools := by
  refine ⟨rfl, rfl, rfl, by decide⟩

/-- C2 (amended): the state a successful `start` installs is exactly the
aggregation computed at start, and the MCP dispatcher handlers registered by
`initializeMcpServerLogic` serve that state without rebuilding it; however
the instance's public capability methods (`listTools`, `callTool`, ...) run
`aggregateCapabilities` against the live upstreams on every call, so their
answers depend only on the current upstream state, not on the view captured
at start. -/
theorem dispatcher_frozen_public_rebuilds (defn : VMCPDefinition) (w wlive : World)
    (bindOk : Bool) (st : AggState)
    (h : VMCPInstance.start defn w bindOk = Except.ok st) :
    st = aggregateRaw defn w
    ∧ dispatchListTools st = (aggregateRaw defn w).aggregatedTools
    ∧ dispatchListPrompts st = (aggregateRaw defn w).aggregatedPrompts
    ∧ dispatchListResources st = (aggregateRaw defn w).aggregatedResources
    ∧ VMCPInstance.listTools defn wlive
        = (aggregateCapabilities defn wlive).map AggState.aggregatedTools := by
  have hst : st = aggregateRaw defn w := by
    unfold VMCPInstance.start at h
    cases hagg : aggregateCapabilities defn w with
    | error e => rw [hagg] at h; exact absurd h (by simp)
    | ok st' =>
      rw [hagg] at h
      have hst' : st' = aggregateRaw defn w := by
        unfold aggregateCapabilities at hagg
        split at hagg
        · injection hagg with hh
          exact hh.symm
        · split at hagg
          · exact absurd hagg (by simp)
          · injection hagg with hh
            exact hh.symm
      clear hagg
      cases hcap : st'.hasCapabilities with
      | false => simp [hcap] at h
      | true =>
        cases bindOk with
        | false => simp [hcap] at h
        | true =>
          simp [hcap] at h
          rw [← h]
          exact hst'
  exact ⟨hst, by simp [dispatchListTools, hst], by simp [dispatchListPrompts, hst],
    by simp [dispatchListResources, hst], rfl⟩

theorem dispatcher_frozen_public_rebuilds_witness :
    (VMCPInstance.start c2Defn c2WorldBefore true = Except.ok c2StartState)
    ∧ (c2StartState = aggregateRaw c2Defn c2WorldBefore
      ∧ dispatchListTools c2StartState = (aggregateRaw c2Defn c2WorldBefore).aggregatedTools
      ∧ dispatchListPrompts c2StartState
          = (aggregateRaw c2Defn c2WorldBefore).aggregatedPrompts
      ∧ dispatchListResources c2StartState
          = (aggregateRaw c2Defn c2WorldBefore).aggregatedResources
      ∧ VMCPInstance.listTools c2Defn c2WorldAfter
          = (aggregateCapabilities c2Defn c2WorldAfter).map AggState.aggregatedTools) :=
  ⟨rfl, dispatcher_frozen_public_rebuilds c2Defn c2WorldBefore c2WorldAfter true
    c2StartState rfl⟩

theorem foldl_processServer_filter (rs : RuleSetup) (w : World) (servers : List String)
    (st : AggState) :
    servers.foldl (processServer rs w) st
      = (servers.filter (fun s => sourceReachable (w s))).foldl (processServer rs w) st := by
  induction servers generalizing st with
  | nil => rfl
  | cons s rest ih =>
    cases hs : sourceReachable (w s) with
    | true =>
      rw [List.foldl_cons, List.filter_cons]
      simp only [hs, if_true]
      rw [List.foldl_cons]
      exact ih _
    | false =>
      rw [List.foldl_cons, List.filter_cons]
      simp only [hs, Bool.false_eq_true, if_false]
      have hid : processServer rs w st s = st := by
        unfold processServer
        simp [hs]
      rw [hid]
      exact ih _

/-- C10: a source whose transport is missing or cannot connect contributes
nothing and aborts nothing: processing it leaves the aggregation state
unchanged, the whole aggregation equals the aggregation over the reachable
sources only (entries from the remaining sources are still collected), and
when anything was aggregated a `start` failure is never the no-capabilities
failure. -/
theorem failing_source_skipped (defn : VMCPDefinition) (w : World) (bindOk : Bool)
    (hcap : (aggregateRaw defn w).hasCapabilities = true) :
    (∀ st s, sourceReachable (w s) = false →
        processServer (ruleSetup defn.aggregationRules) w st s = st)
    ∧ aggregateRaw defn w =
        aggregateRaw { defn with sourceServerIds :=
          defn.sourceServerIds.filter (fun s => sourceReachable (w s)) } w
    ∧ ∀ e, VMCPInstance.start defn w bindOk = Except.error e →
        isNoCapabilitiesError e = false := by
  refine ⟨?_, ?_, start_error_not_noCap defn w bindOk hcap⟩
  · intro st s hfail
    unfold processServer
    simp [hfail]
  · unfold aggregateRaw
    exact foldl_processServer_filter (ruleSetup defn.aggregationRules) w
      defn.sourceServerIds AggState.empty

def c10Defn : VMCPDefinition :=
  VMCPDefinition.mk "v10" "vmcp-ten" 5010 ["down", "up"] [AggregationRule.aggregate_all]

def c10World : World := fun s =>
  if s == "down" then
    SourceWorld.mk false false false FetchResult.throws FetchResult.throws FetchResult.throws
  else
    SourceWorld.mk true true true (FetchResult.ok [Tool.mk "t" "tool t"]) FetchResult.noField
      FetchResult.noField

theorem failing_source_skipped_witness :
    ((aggregateRaw c10Defn c10World).hasCapabilities = true)
    ∧ ((∀ st s, sourceReachable (c10World s) = false →
          processServer (ruleSetup c10Defn.aggregationRules) c10World st s = st)
      ∧ aggregateRaw c10Defn c10World =
          aggregateRaw { c10Defn with sourceServerIds :=
            c10Defn.sourceServerIds.filter (fun s => sourceReachable (c10World s)) } c10World
      ∧ ∀ e, VMCPInstance.start c10Defn c10World true = Except.error e →
          isNoCapabilitiesError e = false) :=
  ⟨by decide, failing_source_skipped c10Defn c10World true (by decide)⟩

/-
Capability catalog and discoverer (src/src/capabilities/registry.ts and
src/src/capabilities/discoverer.ts, the latter embedded from
CapabilityDiscoverer).  The catalog stores three two-level maps, per source
then per identifier; every registration validates the record against its zod
schema.  `ToolSchema` only requires `name` and `source` (both present in the
typed records here), but `PromptSchema` additionally requires
`template : z.string()`, while `discoverPrompts` passes
`template: promptData.template`, which is `undefined` when the upstream
record has no template — `PromptSchema.parse` then throws and
`registerPrompt` raises `invalid_prompt`, failing the discovery with
`prompts_discovery_failed`.  `discoverCapabilities` checks the transport
exists, connects when needed, then runs `discoverTools` (a `tools/list`
request, registering each record with `source = serverId`) and
`discoverPrompts` (`prompts/list` likewise); it contains no `resources/list`
step.
-/

structure RawTool where
  name : String
  description : String
deriving DecidableEq

/- A prompt record as returned by `prompts/list`: the `template` member may
be absent (`undefined` in the source). -/
structure RawPrompt where
  name : String
  description : String
  template : Option String
deriving DecidableEq

structure DTool where
  name : String
  description : String
  source : String
deriving DecidableEq

/- A prompt as stored in the catalog after `PromptSchema.parse` succeeded;
the schema requires `template`, so it is a plain string here. -/
structure DPrompt where
  name : String
  description : String
  template : String
  source : String
deriving DecidableEq

structure DResource where
  uri : String
  source : String
deriving DecidableEq

/- The record `discoverPrompts` builds and hands to `registerPrompt`:
`template: promptData.template` may be `undefined`. -/
structure PromptCandidate where
  name : String
  description : String
  template : Option String
  source : String
deriving DecidableEq

/- `ensureServerMaps` materializes an empty per-identifier map for a source. -/
def ensureKey {α : Type} (m : List (String × List (String × α))) (k : String) :
    List (String × List (String × α)) :=
  if mapHas m k then m else m ++ [(k, [])]

theorem mapGetD_ensureKey {α : Type} (m : List (String × List (String × α))) (k n : String) :
    (mapGet (ensureKey m k) n).getD [] = (mapGet m n).getD [] := by
  unfold ensureKey
  cases hhas : mapHas m k with
  | true => simp [hhas]
  | false =>
    simp only [hhas, Bool.false_eq_true, if_false]
    rw [mapGet_append]
    cases hg : mapGet m n with
    | some v => simp
    | none =>
      simp only
      rw [mapGet_cons]
      cases hk : (k == n) with
      | true =>
        have : k = n := by simpa using hk
        subst this
        rw [mapGet_eq_none_of_not_has m k hhas] at hg
        simp [hk]
      | false => simp [hk, mapGet_nil]

structure CapabilityRegistry where
  toolsByServer : List (String × List (String × DTool))
  promptsByServer : List (String × List (String × DPrompt))
  resourcesByServer : List (String × List (String × DResource))
deriving DecidableEq

def CapabilityRegistry.empty : CapabilityRegistry := CapabilityRegistry.mk [] [] []

def CapabilityRegistry.ensureServerMaps (reg : CapabilityRegistry) (serverId : String) :
    CapabilityRegistry :=
  CapabilityRegistry.mk (ensureKey reg.toolsByServer serverId)
    (ensureKey reg.promptsByServer serverId) (ensureKey reg.resourcesByServer serverId)

/- `registerTool`: ensure, validate against `ToolSchema` (name and source are
required strings, always present in the typed record; the other members are
optional), then overwrite per name via `Map.set`. -/
def CapabilityRegistry.registerTool (reg : CapabilityRegistry) (t : DTool) :
    CapabilityRegistry :=
  let reg1 := reg.ensureServerMaps t.source
  CapabilityRegistry.mk
    (mapSet reg1.toolsByServer t.source
      (mapSet ((mapGet reg1.toolsByServer t.source).getD []) t.name t))
    reg1.promptsByServer reg1.resourcesByServer

/- `registerPrompt`: ensure, then `PromptSchema.parse` — the schema requires
`template : z.string()`, so a record whose template is `undefined` throws
`invalid_prompt` after the ensure step; a valid record is stored per name via
`Map.set`.  The Bool reports whether registration succeeded. -/
def CapabilityRegistry.registerPrompt (reg : CapabilityRegistry) (p : PromptCandidate) :
    CapabilityRegistry × Bool :=
  match p.template with
  | none => (reg.ensureServerMaps p.source, false)
  | some t =>
    (CapabilityRegistry.mk (reg.ensureServerMaps p.source).toolsByServer
      (mapSet (reg.ensureServerMaps p.source).promptsByServer p.source
        (mapSet ((mapGet (reg.ensureServerMaps p.source).promptsByServer p.source).getD [])
          p.name (DPrompt.mk p.name p.description t p.source)))
      (reg.ensureServerMaps p.source).resourcesByServer, true)

def CapabilityRegistry.getToolsForServer (reg : CapabilityRegistry) (s : String) :
    List DTool :=
  ((mapGet reg.toolsByServer s).getD []).map Prod.snd

def CapabilityRegistry.getPromptsForServer (reg : CapabilityRegistry) (s : String) :
    List DPrompt :=
  ((mapGet reg.promptsByServer s).getD []).map Prod.snd

def CapabilityRegistry.getResourcesForServer (reg : CapabilityRegistry) (s : String) :
    List DResource :=
  ((mapGet reg.resourcesByServer s).getD []).map Prod.snd

def toolFor (reg : CapabilityRegistry) (s n : String) : Option DTool :=
  mapGet ((mapGet reg.toolsByServer s).getD []) n

def promptFor (reg : CapabilityRegistry) (s n : String) : Option DPrompt :=
  mapGet ((mapGet reg.promptsByServer s).getD []) n

def toolKeysFor (reg : CapabilityRegistry) (s : String) : List String :=
  mapKeys ((mapGet reg.toolsByServer s).getD [])

/- Outcome of one list request sent by the discoverer: the await may reject,
the response may fail the structure check (`result.<kind>` not an array), or
it carries the records. -/
inductive ListResp (α : Type)
  | throws
  | invalid
  | ok (items : List α)
deriving DecidableEq

structure DiscSource where
  hasTransport : Bool
  connected : Bool
  startOk : Bool
  tools : ListResp RawTool
  prompts : ListResp RawPrompt
deriving DecidableEq

def DWorld : Type := String → DiscSource

inductive DiscError
  | serverNotFound (serverId : String)
  | discoveryFailed (serverId : String)
  | toolsDiscoveryFailed (serverId : String)
  | promptsDiscoveryFailed (serverId : String)
deriving DecidableEq

structure DiscResult where
  registry : CapabilityRegistry
  issuedMethods : List String
  error : Option DiscError
deriving DecidableEq

def registerToolsFromList (serverId : String) (reg : CapabilityRegistry)
    (ts : List RawTool) : CapabilityRegistry :=
  ts.foldl (fun r td => r.registerTool (DTool.mk td.name td.description serverId)) reg

/- The `discoverPrompts` registration loop: register each record in order;
an `invalid_prompt` throw propagates out of the loop, keeping the records
registered before it (the registry is mutated in place). -/
def registerPromptsFromList (serverId : String) (reg : CapabilityRegistry)
    (ps : List RawPrompt) : CapabilityRegistry × Bool :=
  match ps with
  | [] => (reg, true)
  | pd :: rest =>
    if (reg.registerPrompt (PromptCandidate.mk pd.name pd.description pd.template serverId)).snd
    then
      registerPromptsFromList serverId
        (reg.registerPrompt
          (PromptCandidate.mk pd.name pd.description pd.template serverId)).fst rest
    else
      ((reg.registerPrompt
          (PromptCandidate.mk pd.name pd.description pd.template serverId)).fst, false)

/- CapabilityDiscoverer.discoverCapabilities: transport lookup, connect when
needed, then `discoverTools` and `discoverPrompts`; registrations performed
before a failure remain, and a prompt record failing `PromptSchema.parse`
aborts prompt discovery with `prompts_discovery_failed`. -/
def discoverCapabilities (reg : CapabilityRegistry) (w : DWorld) (serverId : String) :
    DiscResult :=
  if !(w serverId).hasTransport then
    DiscResult.mk reg [] (some (DiscError.serverNotFound serverId))
  else if !(w serverId).connected && !(w serverId).startOk then
    DiscResult.mk reg [] (some (DiscError.discoveryFailed serverId))
  else
    match (w serverId).tools with
    | ListResp.throws =>
      DiscResult.mk reg ["tools/list"] (some (DiscError.toolsDiscoveryFailed serverId))
    | ListResp.invalid =>
      DiscResult.mk reg ["tools/list"] (some (DiscError.toolsDiscoveryFailed serverId))
    | ListResp.ok ts =>
      match (w serverId).prompts with
      | ListResp.throws =>
        DiscResult.mk (registerToolsFromList serverId reg ts) ["tools/list", "prompts/list"]
          (some (DiscError.promptsDiscoveryFailed serverId))
      | ListResp.invalid =>
        DiscResult.mk (registerToolsFromList serverId reg ts) ["tools/list", "prompts/list"]
          (some (DiscError.promptsDiscoveryFailed serverId))
      | ListResp.ok ps =>
        if (registerPromptsFromList serverId (registerToolsFromList serverId reg ts) ps).snd
        then
          DiscResult.mk
            (registerPromptsFromList serverId (registerToolsFromList serverId reg ts) ps).fst
            ["tools/list", "prompts/list"] none
        else
          DiscResult.mk
            (registerPromptsFromList serverId (registerToolsFromList serverId reg ts) ps).fst
            ["tools/list", "prompts/list"] (some (DiscError.promptsDiscoveryFailed serverId))

theorem find?_append_opt {α : Type} (l₁ l₂ : List α) (p : α → Bool) :
    (l₁ ++ l₂).find? p = optOr (l₁.find? p) (l₂.find? p) := by
  induction l₁ with
  | nil => simp [optOr]
  | cons a rest ih =>
    rw [List.cons_append, List.find?, List.find?]
    cases h : p a <;> simp [ih, optOr]

theorem registerPrompt_snd (reg : CapabilityRegistry) (p : PromptCandidate) :
    (reg.registerPrompt p).snd = p.template.isSome := by
  unfold CapabilityRegistry.registerPrompt
  cases htp : p.template <;> simp [htp]

theorem toolFor_registerTool (reg : CapabilityRegistry) (t : DTool) (s n : String) :
    toolFor (reg.registerTool t) s n =
      if (s == t.source) && (n == t.name) then some t else toolFor reg s n := by
  unfold CapabilityRegistry.registerTool toolFor CapabilityRegistry.ensureServerMaps
  simp only
  rw [mapGet_set]
  cases hs : (s == t.source) with
  | true =>
    have hseq : s = t.source := by simpa using hs
    simp only [hs, if_true, Bool.true_and, Option.getD_some]
    rw [mapGet_set]
    cases hn : (n == t.name) with
    | true => simp [hn]
    | false =>
      simp only [hn, Bool.false_eq_true, if_false]
      rw [mapGetD_ensureKey, hseq]
  | false =>
    simp only [hs, Bool.false_and, Bool.false_eq_true, if_false]
    rw [mapGetD_ensureKey]

theorem promptFor_registerTool (reg : CapabilityRegistry) (t : DTool) (s n : String) :
    promptFor (reg.registerTool t) s n = promptFor reg s n := by
  unfold CapabilityRegistry.registerTool promptFor CapabilityRegistry.ensureServerMaps
  simp only
  rw [mapGetD_ensureKey]

theorem toolFor_registerPrompt (reg : CapabilityRegistry) (p : PromptCandidate) (s n : String) :
    toolFor (reg.registerPrompt p).fst s n = toolFor reg s n := by
  unfold CapabilityRegistry.registerPrompt
  cases htp : p.template with
  | none =>
    simp only [htp]
    unfold toolFor CapabilityRegistry.ensureServerMaps
    simp only
    rw [mapGetD_ensureKey]
  | some t =>
    simp only [htp]
    unfold toolFor CapabilityRegistry.ensureServerMaps
    simp only
    rw [mapGetD_ensureKey]

theorem promptFor_registerPrompt_ok (reg : CapabilityRegistry) (p : PromptCandidate)
    (t : String) (htp : p.template = some t) (s m : String) :
    promptFor (reg.registerPrompt p).fst s m =
      if (s == p.source) && (m == p.name)
      then some (DPrompt.mk p.name p.description t p.source)
      else promptFor reg s m := by
  unfold CapabilityRegistry.registerPrompt
  simp only [htp]
  unfold promptFor CapabilityRegistry.ensureServerMaps
  simp only
  rw [mapGet_set]
  cases hs : (s == p.source) with
  | true =>
    have hseq : s = p.source := by simpa using hs
    simp only [hs, if_true, Bool.true_and, Option.getD_some]
    rw [mapGet_set]
    cases hn : (m == p.name) with
    | true => simp [hn]
    | false =>
      simp only [hn, Bool.false_eq_true, if_false]
      rw [mapGetD_ensureKey, hseq]
  | false =>
    simp only [hs, Bool.false_and, Bool.false_eq_true, if_false]
    rw [mapGetD_ensureKey]

theorem resourcesFor_registerTool (reg : CapabilityRegistry) (t : DTool) (s : String) :
    (reg.registerTool t).getResourcesForServer s = reg.getResourcesForServer s := by
  unfold CapabilityRegistry.registerTool CapabilityRegistry.getResourcesForServer
    CapabilityRegistry.ensureServerMaps
  simp only
  rw [mapGetD_ensureKey]

theorem resourcesFor_registerPrompt (reg : CapabilityRegistry) (p : PromptCandidate)
    (s : String) :
    (reg.registerPrompt p).fst.getResourcesForServer s = reg.getResourcesForServer s := by
  unfold CapabilityRegistry.registerPrompt
  cases htp : p.template with
  | none =>
    simp only [htp]
    unfold CapabilityRegistry.getResourcesForServer CapabilityRegistry.ensureServerMaps
    simp only
    rw [mapGetD_ensureKey]
  | some t =>
    simp only [htp]
    unfold CapabilityRegistry.getResourcesForServer CapabilityRegistry.ensureServerMaps
    simp only
    rw [mapGetD_ensureKey]

theorem toolFor_registerToolsFromList (serverId : String) (ts : List RawTool)
    (reg : CapabilityRegistry) (s n : String) :
    toolFor (registerToolsFromList serverId reg ts) s n =
      if s == serverId then
        match ts.reverse.find? (fun td => td.name == n) with
        | some td => some (DTool.mk td.name td.description serverId)
        | none => toolFor reg s n
      else toolFor reg s n := by
  induction ts generalizing reg with
  | nil => cases hs : (s == serverId) <;> simp [registerToolsFromList, hs]
  | cons td rest ih =>
    have hstep : registerToolsFromList serverId reg (td :: rest)
        = registerToolsFromList serverId
            (reg.registerTool (DTool.mk td.name td.description serverId)) rest := rfl
    rw [hstep, ih, toolFor_registerTool]
    rw [List.reverse_cons, find?_append_opt]
    cases hs : (s == serverId) with
    | false => simp [hs]
    | true =>
      simp only [hs, if_true, Bool.true_and]
      cases hfind : rest.reverse.find? (fun x => x.name == n) with
      | some td' => simp [optOr, hfind]
      | none =>
        simp only [hfind, optOr]
        rw [List.find?]
        cases hn : (td.name == n) with
        | true =>
          have h1 : td.name = n := by simpa using hn
          have h2 : (n == td.name) = true := by simp [h1]
          simp [h2]
        | false =>
          have h1 : ¬ td.name = n := by simpa using hn
          have h2 : (n == td.name) = false := by
            simp
            exact fun hh => h1 hh.symm
          simp [h2, List.find?]

theorem promptFor_registerToolsFromList (serverId : String) (ts : List RawTool)
    (reg : CapabilityRegistry) (s n : String) :
    promptFor (registerToolsFromList serverId reg ts) s n = promptFor reg s n := by
  induction ts generalizing reg with
  | nil => rfl
  | cons td rest ih =>
    have hstep : registerToolsFromList serverId reg (td :: rest)
        = registerToolsFromList serverId
            (reg.registerTool (DTool.mk td.name td.description serverId)) rest := rfl
    rw [hstep, ih, promptFor_registerTool]

theorem toolFor_registerPromptsFromList (serverId : String) (ps : List RawPrompt)
    (reg : CapabilityRegistry) (s n : String) :
    toolFor (registerPromptsFromList serverId reg ps).fst s n = toolFor reg s n := by
  induction ps generalizing reg with
  | nil => rfl
  | cons pd rest ih =>
    unfold registerPromptsFromList
    cases hsnd : (reg.registerPrompt
        (PromptCandidate.mk pd.name pd.description pd.template serverId)).snd with
    | true =>
      simp only [hsnd, if_true]
      rw [ih, toolFor_registerPrompt]
    | false =>
      simp only [hsnd, Bool.false_eq_true, if_false]
      exact toolFor_registerPrompt reg _ s n

theorem registerPromptsFromList_snd_of_valid (serverId : String) (ps : List RawPrompt)
    (reg : CapabilityRegistry) (hval : ∀ pd ∈ ps, pd.template.isSome = true) :
    (registerPromptsFromList serverId reg ps).snd = true := by
  induction ps generalizing reg with
  | nil => rfl
  | cons pd rest ih =>
    unfold registerPromptsFromList
    have hsnd : (reg.registerPrompt
        (PromptCandidate.mk pd.name pd.description pd.template serverId)).snd = true := by
      rw [registerPrompt_snd]
      exact hval pd (List.mem_cons_self pd rest)
    simp only [hsnd, if_true]
    exact ih _ (fun u hu => hval u (List.mem_cons_of_mem pd hu))

theorem promptFor_registerPromptsFromList (serverId : String) (ps : List RawPrompt)
    (reg : CapabilityRegistry) (s n : String)
    (hval : ∀ pd ∈ ps, pd.template.isSome = true) :
    promptFor (registerPromptsFromList serverId reg ps).fst s n =
      if s == serverId then
        match ps.reverse.find? (fun pd => pd.name == n) with
        | some pd =>
          some (DPrompt.mk pd.name pd.description (pd.template.getD "") serverId)
        | none => promptFor reg s n
      else promptFor reg s n := by
  induction ps generalizing reg with
  | nil => cases hs : (s == serverId) <;> simp [registerPromptsFromList, hs]
  | cons pd rest ih =>
    have hpd : pd.template.isSome = true := hval pd (List.mem_cons_self pd rest)
    obtain ⟨t, ht⟩ := Option.isSome_iff_exists.mp hpd
    unfold registerPromptsFromList
    have hsnd : (reg.registerPrompt
        (PromptCandidate.mk pd.name pd.description pd.template serverId)).snd = true := by
      rw [registerPrompt_snd]
      exact hpd
    simp only [hsnd, if_true]
    rw [ih _ (fun u hu => hval u (List.mem_cons_of_mem pd hu))]
    rw [promptFor_registerPrompt_ok reg
      (PromptCandidate.mk pd.name pd.description pd.template serverId) t (by simpa using ht)]
    rw [List.reverse_cons, find?_append_opt]
    cases hs : (s == serverId) with
    | false => simp [hs]
    | true =>
      simp only [hs, if_true, Bool.true_and]
      cases hfind : rest.reverse.find? (fun x => x.name == n) with
      | some pd' => simp [optOr, hfind]
      | none =>
        simp only [hfind, optOr]
        rw [List.find?]
        cases hn : (pd.name == n) with
        | true =>
          have h1 : pd.name = n := by simpa using hn
          have h2 : (n == pd.name) = true := by simp [h1]
          simp [h2, ht]
        | false =>
          have h1 : ¬ pd.name = n := by simpa using hn
          have h2 : (n == pd.name) = false := by
            simp
            exact fun hh => h1 hh.symm
          simp [h2, List.find?]

theorem resourcesFor_registerToolsFromList (serverId : String) (ts : List RawTool)
    (reg : CapabilityRegistry) (s : String) :
    (registerToolsFromList serverId reg ts).getResourcesForServer s
      = reg.getResourcesForServer s := by
  induction ts generalizing reg with
  | nil => rfl
  | cons td rest ih =>
    have hstep : registerToolsFromList serverId reg (td :: rest)
        = registerToolsFromList serverId
            (reg.registerTool (DTool.mk td.name td.description serverId)) rest := rfl
    rw [hstep, ih, resourcesFor_registerTool]

theorem resourcesFor_registerPromptsFromList (serverId : String) (ps : List RawPrompt)
    (reg : CapabilityRegistry) (s : String) :
    (registerPromptsFromList serverId reg ps).fst.getResourcesForServer s
      = reg.getResourcesForServer s := by
  induction ps generalizing reg with
  | nil => rfl
  | cons pd rest ih =>
    unfold registerPromptsFromList
    cases hsnd : (reg.registerPrompt
        (PromptCandidate.mk pd.name pd.description pd.template serverId)).snd with
    | true =>
      simp only [hsnd, if_true]
      rw [ih, resourcesFor_registerPrompt]
    | false =>
      simp only [hsnd, Bool.false_eq_true, if_false]
      exact resourcesFor_registerPrompt reg _ s

theorem toolKeysFor_registerTool_nodup (reg : CapabilityRegistry) (t : DTool) (s : String)
    (h : (toolKeysFor reg s).Nodup) : (toolKeysFor (reg.registerTool t) s).Nodup := by
  unfold toolKeysFor at h ⊢
  unfold CapabilityRegistry.registerTool CapabilityRegistry.ensureServerMaps
  simp only
  rw [mapGet_set]
  cases hs : (s == t.source) with
  | true =>
    have hseq : s = t.source := by simpa using hs
    simp only [hs, if_true, Option.getD_some]
    apply mapKeys_nodup_set
    rw [mapGetD_ensureKey, ← hseq]
    exact h
  | false =>
    simp only [hs, Bool.false_eq_true, if_false]
    rw [mapGetD_ensureKey]
    exact h

theorem toolKeysFor_registerPrompt_eq (reg : CapabilityRegistry) (p : PromptCandidate)
    (s : String) :
    toolKeysFor (reg.registerPrompt p).fst s = toolKeysFor reg s := by
  unfold CapabilityRegistry.registerPrompt
  cases htp : p.template with
  | none =>
    simp only [htp]
    unfold toolKeysFor CapabilityRegistry.ensureServerMaps
    simp only
    rw [mapGetD_ensureKey]
  | some t =>
    simp only [htp]
    unfold toolKeysFor CapabilityRegistry.ensureServerMaps
    simp only
    rw [mapGetD_ensureKey]

theorem toolKeysFor_registerToolsFromList_nodup (serverId : String) (ts : List RawTool)
    (reg : CapabilityRegistry) (s : String)
    (h : (toolKeysFor reg s).Nodup) :
    (toolKeysFor (registerToolsFromList serverId reg ts) s).Nodup := by
  induction ts generalizing reg with
  | nil => exact h
  | cons td rest ih =>
    have hstep : registerToolsFromList serverId reg (td :: rest)
        = registerToolsFromList serverId
            (reg.registerTool (DTool.mk td.name td.description serverId)) rest := rfl
    rw [hstep]
    exact ih _ (toolKeysFor_registerTool_nodup reg _ s h)

theorem toolKeysFor_registerPromptsFromList (serverId : String) (ps : List RawPrompt)
    (reg : CapabilityRegistry) (s : String) :
    toolKeysFor (registerPromptsFromList serverId reg ps).fst s = toolKeysFor reg s := by
  induction ps generalizing reg with
  | nil => rfl
  | cons pd rest ih =>
    unfold registerPromptsFromList
    cases hsnd : (reg.registerPrompt
        (PromptCandidate.mk pd.name pd.description pd.template serverId)).snd with
    | true =>
      simp only [hsnd, if_true]
      rw [ih, toolKeysFor_registerPrompt_eq]
    | false =>
      simp only [hsnd, Bool.false_eq_true, if_false]
      exact toolKeysFor_registerPrompt_eq reg _ s

/- A connected discovery run whose list responses are well-formed and whose
prompt records all carry a template (so every `PromptSchema.parse` passes). -/
theorem discover_ok_eq (reg : CapabilityRegistry) (w : DWorld) (serverId : String)
    (ts : List RawTool) (ps : List RawPrompt)
    (htr : (w serverId).hasTransport = true)
    (hconn : (w serverId).connected = true ∨ (w serverId).startOk = true)
    (htools : (w serverId).tools = ListResp.ok ts)
    (hprompts : (w serverId).prompts = ListResp.ok ps)
    (hval : ∀ pd ∈ ps, pd.template.isSome = true) :
    discoverCapabilities reg w serverId =
      DiscResult.mk
        (registerPromptsFromList serverId (registerToolsFromList serverId reg ts) ps).fst
        ["tools/list", "prompts/list"] none := by
  have hguard : (!(w serverId).connected && !(w serverId).startOk) = false := by
    rcases hconn with h | h <;> simp [h]
  have hsnd := registerPromptsFromList_snd_of_valid serverId ps
    (registerToolsFromList serverId reg ts) hval
  unfold discoverCapabilities
  simp [htr, hguard, htools, hprompts, hsnd]

def c3World : DWorld := fun _ =>
  DiscSource.mk true true true (ListResp.ok [RawTool.mk "echo" "echo tool"])
    (ListResp.ok [RawPrompt.mk "greet" "greet prompt" (some "greet template")])

/-- C3 counterexample: the claim says `discover` issues all three list
requests, `tools/list`, `prompts/list` and `resources/list`; on the code a
fully successful discovery issues exactly `tools/list` and `prompts/list`,
never `resources/list`, and registers no resources. -/
theorem discover_omits_resources_counterexample :
    (discoverCapabilities CapabilityRegistry.empty c3World "U1").issuedMethods
      = ["tools/list", "prompts/list"]
    ∧ "resources/list" ∉
        (discoverCapabilities CapabilityRegistry.empty c3World "U1").issuedMethods
    ∧ (discoverCapabilities CapabilityRegistry.empty c3World "U1").registry.getResourcesForServer
        "U1" = [] := by
  refine ⟨rfl, by decide, rfl⟩

def cInvalidPromptWorld : DWorld := fun _ =>
  DiscSource.mk true true true (ListResp.ok [RawTool.mk "echo" "echo tool"])
    (ListResp.ok [RawPrompt.mk "greet" "greet prompt" none])

/- The validation path of discovery: a prompt record without a template
fails `PromptSchema.parse`, so `discover` fails with
`prompts_discovery_failed` while the tools already registered remain and no
prompt is stored. -/
theorem discover_invalid_prompt_eval :
    (discoverCapabilities CapabilityRegistry.empty cInvalidPromptWorld "U1").error
        = some (DiscError.promptsDiscoveryFailed "U1")
    ∧ (discoverCapabilities CapabilityRegistry.empty
        cInvalidPromptWorld "U1").registry.getToolsForServer "U1"
        = [DTool.mk "echo" "echo tool" "U1"]
    ∧ (discoverCapabilities CapabilityRegistry.empty
        cInvalidPromptWorld "U1").registry.getPromptsForServer "U1" = [] := by
  refine ⟨rfl, rfl, rfl⟩

/-- C3 (amended): with a registered transport that is connected or connects
successfully, `discover(upstreamName)` issues exactly two list requests,
`tools/list` then `prompts/list` (no `resources/list`); when every returned
prompt record carries a template (so `PromptSchema.parse` passes — a
template-less record instead aborts with `prompts_discovery_failed`), the run
succeeds, registers every returned tool and prompt into the catalog with
`source` set to the upstream name, and leaves the resource catalog of every
source untouched. -/
theorem discover_issues_two_lists (reg : CapabilityRegistry) (w : DWorld) (serverId : String)
    (ts : List RawTool) (ps : List RawPrompt)
    (htr : (w serverId).hasTransport = true)
    (hconn : (w serverId).connected = true ∨ (w serverId).startOk = true)
    (htools : (w serverId).tools = ListResp.ok ts)
    (hprompts : (w serverId).prompts = ListResp.ok ps)
    (hval : ∀ pd ∈ ps, pd.template.isSome = true) :
    (discoverCapabilities reg w serverId).issuedMethods = ["tools/list", "prompts/list"]
    ∧ "resources/list" ∉ (discoverCapabilities reg w serverId).issuedMethods
    ∧ (discoverCapabilities reg w serverId).error = none
    ∧ (∀ td, td ∈ ts →
        ∃ dt, toolFor (discoverCapabilities reg w serverId).registry serverId td.name = some dt
          ∧ dt.source = serverId ∧ dt.name = td.name)
    ∧ (∀ pd, pd ∈ ps →
        ∃ dp, promptFor (discoverCapabilities reg w serverId).registry serverId pd.name
            = some dp
          ∧ dp.source = serverId ∧ dp.name = pd.name)
    ∧ ∀ s, (discoverCapabilities reg w serverId).registry.getResourcesForServer s
        = reg.getResourcesForServer s := by
  rw [discover_ok_eq reg w serverId ts ps htr hconn htools hprompts hval]
  refine ⟨rfl, ?_, rfl, ?_, ?_, ?_⟩
  · dsimp only
    decide
  · intro td htd
    dsimp only
    rw [toolFor_registerPromptsFromList, toolFor_registerToolsFromList]
    simp only [BEq.refl, if_true]
    have hsome : (ts.reverse.find? (fun x => x.name == td.name)).isSome := by
      rw [List.find?_isSome]
      exact ⟨td, by simp [htd], by simp⟩
    obtain ⟨td', hfind⟩ := Option.isSome_iff_exists.mp hsome
    rw [hfind]
    have hname : td'.name = td.name := by
      have := List.find?_some hfind
      simpa using this
    exact ⟨DTool.mk td'.name td'.description serverId, rfl, rfl, hname⟩
  · intro pd hpd
    dsimp only
    rw [promptFor_registerPromptsFromList serverId ps _ serverId pd.name hval]
    simp only [BEq.refl, if_true]
    have hsome : (ps.reverse.find? (fun x => x.name == pd.name)).isSome := by
      rw [List.find?_isSome]
      exact ⟨pd, by simp [hpd], by simp⟩
    obtain ⟨pd', hfind⟩ := Option.isSome_iff_exists.mp hsome
    rw [hfind]
    have hname : pd'.name = pd.name := by
      have := List.find?_some hfind
      simpa using this
    exact ⟨DPrompt.mk pd'.name pd'.description (pd'.template.getD "") serverId, rfl, rfl, hname⟩
  · intro s
    dsimp only
    rw [resourcesFor_registerPromptsFromList, resourcesFor_registerToolsFromList]

theorem discover_issues_two_lists_witness :
    ((c3World "U1").hasTransport = true)
    ∧ ((c3World "U1").connected = true ∨ (c3World "U1").startOk = true)
    ∧ ((c3World "U1").tools = ListResp.ok [RawTool.mk "echo" "echo tool"])
    ∧ ((c3World "U1").prompts
        = ListResp.ok [RawPrompt.mk "greet" "greet prompt" (some "greet template")])
    ∧ (∀ pd ∈ [RawPrompt.mk "greet" "greet prompt" (some "greet template")],
        pd.template.isSome = true)
    ∧ ((discoverCapabilities CapabilityRegistry.empty c3World "U1").issuedMethods
          = ["tools/list", "prompts/list"]
      ∧ "resources/list" ∉
          (discoverCapabilities CapabilityRegistry.empty c3World "U1").issuedMethods
      ∧ (discoverCapabilities CapabilityRegistry.empty c3World "U1").error = none
      ∧ (∀ td, td ∈ [RawTool.mk "echo" "echo tool"] →
          ∃ dt, toolFor (discoverCapabilities CapabilityRegistry.empty c3World "U1").registry
              "U1" td.name = some dt
            ∧ dt.source = "U1" ∧ dt.name = td.name)
      ∧ (∀ pd, pd ∈ [RawPrompt.mk "greet" "greet prompt" (some "greet template")] →
          ∃ dp, promptFor (discoverCapabilities CapabilityRegistry.empty c3World "U1").registry
              "U1" pd.name = some dp
            ∧ dp.source = "U1" ∧ dp.name = pd.name)
      ∧ ∀ s, (discoverCapabilities CapabilityRegistry.empty c3World "U1").registry.getResourcesForServer
            s = CapabilityRegistry.empty.getResourcesForServer s) :=
  ⟨rfl, Or.inl rfl, rfl, rfl, by decide,
    discover_issues_two_lists CapabilityRegistry.empty c3World "U1"
      [RawTool.mk "echo" "echo tool"]
      [RawPrompt.mk "greet" "greet prompt" (some "greet template")]
      rfl (Or.inl rfl) rfl rfl (by decide)⟩

def c9WorldA : DWorld := fun _ =>
  DiscSource.mk true true true (ListResp.ok [RawTool.mk "a" "tool a"]) (ListResp.ok [])

def c9WorldB : DWorld := fun _ =>
  DiscSource.mk true true true (ListResp.ok [RawTool.mk "b" "tool b"]) (ListResp.ok [])

def c9RegFirst : CapabilityRegistry :=
  (discoverCapabilities CapabilityRegistry.empty c9WorldA "S").registry

def c9RegSecond : CapabilityRegistry :=
  (discoverCapabilities c9RegFirst c9WorldB "S").registry

/-- C9 counterexample: the claim says a second discovery replaces the
catalog entries for the source, leaving exactly the capabilities returned by
the second run; on the code registration upserts without clearing: after a
first discovery returning tool `a` and a second returning only tool `b`, the
catalog for `S` holds both `a` and `b` — the stale `a` survives. -/
theorem discover_twice_keeps_stale_counterexample :
    (discoverCapabilities CapabilityRegistry.empty c9WorldA "S").error = none
    ∧ (discoverCapabilities c9RegFirst c9WorldB "S").error = none
    ∧ c9RegSecond.getToolsForServer "S"
        = [DTool.mk "a" "tool a" "S", DTool.mk "b" "tool b" "S"]
    ∧ c9RegSecond.getToolsForServer "S" ≠ [DTool.mk "b" "tool b" "S"] := by
  refine ⟨rfl, rfl, rfl, by decide⟩

/-- C9 (amended): a successful repeated discovery upserts per identifier
rather than replacing the source's catalog: after a run with tool list `ts`
and prompt list `ps` whose records all pass `PromptSchema.parse` (every
prompt carries a template — otherwise the prompt pass aborts with
`prompts_discovery_failed`), looking a name up yields the latest record of
that name from the new run (same-name entries are overwritten, never
duplicated — identifier keys stay unique), while entries whose names do not
occur in the new run survive unchanged (merge, not replace). -/
theorem discover_upserts_per_identifier (reg : CapabilityRegistry) (w : DWorld)
    (serverId : String) (ts : List RawTool) (ps : List RawPrompt)
    (htr : (w serverId).hasTransport = true)
    (hconn : (w serverId).connected = true ∨ (w serverId).startOk = true)
    (htools : (w serverId).tools = ListResp.ok ts)
    (hprompts : (w serverId).prompts = ListResp.ok ps)
    (hval : ∀ pd ∈ ps, pd.template.isSome = true) :
    (∀ n, toolFor (discoverCapabilities reg w serverId).registry serverId n
        = match ts.reverse.find? (fun td => td.name == n) with
          | some td => some (DTool.mk td.name td.description serverId)
          | none => toolFor reg serverId n)
    ∧ (∀ n, promptFor (discoverCapabilities reg w serverId).registry serverId n
        = match ps.reverse.find? (fun pd => pd.name == n) with
          | some pd =>
            some (DPrompt.mk pd.name pd.description (pd.template.getD "") serverId)
          | none => promptFor reg serverId n)
    ∧ ((toolKeysFor reg serverId).Nodup →
        (toolKeysFor (discoverCapabilities reg w serverId).registry serverId).Nodup) := by
  rw [discover_ok_eq reg w serverId ts ps htr hconn htools hprompts hval]
  refine ⟨?_, ?_, ?_⟩
  · intro n
    dsimp only
    rw [toolFor_registerPromptsFromList, toolFor_registerToolsFromList]
    simp
  · intro n
    dsimp only
    rw [promptFor_registerPromptsFromList serverId ps _ serverId n hval,
      promptFor_registerToolsFromList]
    simp
  · intro h
    dsimp only
    rw [toolKeysFor_registerPromptsFromList]
    exact toolKeysFor_registerToolsFromList_nodup serverId ts reg serverId h

theorem discover_upserts_per_identifier_witness :
    ((c9WorldB "S").hasTransport = true)
    ∧ ((c9WorldB "S").connected = true ∨ (c9WorldB "S").startOk = true)
    ∧ ((c9WorldB "S").tools = ListResp.ok [RawTool.mk "b" "tool b"])
    ∧ ((c9WorldB "S").prompts = ListResp.ok ([] : List RawPrompt))
    ∧ (∀ pd ∈ ([] : List RawPrompt), pd.template.isSome = true)
    ∧ ((∀ n, toolFor (discoverCapabilities c9RegFirst c9WorldB "S").registry "S" n
          = match ([RawTool.mk "b" "tool b"] : List RawTool).reverse.find?
              (fun td => td.name == n) with
            | some td => some (DTool.mk td.name td.description "S")
            | none => toolFor c9RegFirst "S" n)
      ∧ (∀ n, promptFor (discoverCapabilities c9RegFirst c9WorldB "S").registry "S" n
          = match ([] : List RawPrompt).reverse.find? (fun pd => pd.name == n) with
            | some pd =>
              some (DPrompt.mk pd.name pd.description (pd.template.getD "") "S")
            | none => promptFor c9RegFirst "S" n)
      ∧ ((toolKeysFor c9RegFirst "S").Nodup →
          (toolKeysFor (discoverCapabilities c9RegFirst c9WorldB "S").registry "S").Nodup)) :=
  ⟨rfl, Or.inl rfl, rfl, rfl, by decide,
    discover_upserts_per_identifier c9RegFirst c9WorldB "S" [RawTool.mk "b" "tool b"] []
      rfl (Or.inl rfl) rfl rfl (by decide)⟩

/-
Virtual-server manager (src/server/vmcp/manager.ts).  `addVMCP` validates the
required fields (JavaScript falsiness: empty name, port 0 or an empty source
list count as missing), then rejects when `isPortInUse`, then checks every
source id against the configured upstream names.  `isPortInUse` compares the
requested port against the literal 3000 (the code carries a TODO noting it
should be the actual management port from config/env) and against the port of
every definition in the store, whether or not that vMCP is running.
-/

structure NewVMCPDefinition where
  name : String
  port : Nat
  sourceServerIds : List String
deriving DecidableEq

def isPortInUse (store : List VMCPDefinition) (port : Nat) : Bool :=
  port == 3000 || store.any (fun v => v.port == port)

inductive AddError
  | missingFields
  | portInUse (port : Nat)
  | unknownSource (sourceId : String)
deriving DecidableEq

def addVMCPCheck (knownServerIds : List String) (store : List VMCPDefinition)
    (d : NewVMCPDefinition) : Option AddError :=
  if d.name == "" || d.port == 0 || d.sourceServerIds.isEmpty then
    some AddError.missingFields
  else if isPortInUse store d.port then some (AddError.portInUse d.port)
  else
    match d.sourceServerIds.find? (fun s => !(knownServerIds.contains s)) with
    | some s => some (AddError.unknownSource s)
    | none => none

def storedV1 : VMCPDefinition :=
  VMCPDefinition.mk "v1" "one" 5001 ["U1"] [AggregationRule.aggregate_all]

/-- C7: evaluation of the port check.  The collision checks against 3000 and
against every stored definition's port (running or not) hold, but the
management-plane port is hardcoded as 3000: when the management listener is
configured on another port (e.g. `PORT=4000`), an `addVMCP` with that port
passes the port check instead of failing as the claim requires — the TODO
comment in `isPortInUse` marks the hardcoded value as a known slip. -/
theorem port_check_eval :
    isPortInUse [] 3000 = true
    ∧ isPortInUse [storedV1] 5001 = true
    ∧ addVMCPCheck ["U1"] [storedV1] (NewVMCPDefinition.mk "v2" 5001 ["U1"])
        = some (AddError.portInUse 5001)
    ∧ isPortInUse [storedV1] 4000 = false
    ∧ addVMCPCheck ["U1"] [storedV1] (NewVMCPDefinition.mk "v2" 4000 ["U1"]) = none := by
  refine ⟨rfl, rfl, rfl, rfl, rfl⟩

end Nexus
